import Mathlib

/-!
Verification of the chapterbridge scraper worker against its specification.

The development shallowly embeds the relevant TypeScript functions:

* `src/pipelines/scrapeSegment.ts` (`getAssetFilename`, `detectContentType`,
  `uploadAndRegisterAsset`, the image/subtitle/text loops of `scrapeSegment`);
* `src/services/supabase.ts` (`insertAsset`, `attachAssetToSegment`,
  `createJob`, `updateJobStatus`, `getQueuedJobs`);
* `src/services/r2.ts` (`uploadToR2`);
* `src/pipelines/jobRunner.ts` (`pollOnce`).

Buffers are lists of byte values (`List Nat`), database tables are lists of
rows, and the remote services (object store and Postgres) are explicit state.
Failure of a remote call is injected through an oracle so that the retry
logic of `uploadAndRegisterAsset` can be analysed for every failure pattern.
-/

namespace ChapterBridge

/-! ## JavaScript string helpers

`jsOr` models the JavaScript `||` operator on strings: the empty string is
falsy, everything else is truthy. -/

def jsOr (s d : String) : String :=
  if s = "" then d else s

/-- Model of `String.prototype.padStart(n, c)`: left-pad `s` with `c` until the
length is at least `n`. -/
def padStart (s : String) (n : Nat) (c : Char) : String :=
  if n ≤ s.length then s else String.mk (List.replicate (n - s.length) c) ++ s

/-- Characters after the last `'/'`: scanning left to right, a slash resets
the accumulator. -/
def afterLastSlash (l : List Char) : List Char :=
  l.foldl (fun acc c => if c = '/' then [] else acc ++ [c]) []

/-- The part of `p` after the last `'/'` (the basename of a POSIX path). -/
def basenameOf (p : String) : String :=
  String.mk (afterLastSlash p.toList)

/-- ASCII lowercasing, character by character (model of
`String.prototype.toLowerCase` on the extension strings involved). -/
def lowerStr (s : String) : String :=
  String.mk (s.toList.map Char.toLower)

/-- Index of the last occurrence of `c` in `l`, if any. -/
def lastIdxOf (c : Char) (l : List Char) : Option Nat :=
  match l.reverse.findIdx? (fun x => x == c) with
  | some k => some (l.length - 1 - k)
  | none => none

/-- Model of Node's `path.extname`: the substring of the basename from its last
dot to the end; empty when the basename has no dot, when the only dot starts a
dotfile (position 0), or for the special basename `".."`. -/
def extname (p : String) : String :=
  let b := (basenameOf p).toList
  if b = ['.', '.'] then ""
  else
    match lastIdxOf '.' b with
    | none => ""
    | some 0 => ""
    | some i => String.mk (b.drop i)

/-! ## getAssetFilename (src/pipelines/scrapeSegment.ts)

The TypeScript function receives the asset URL and computes
`extname(new URL(url).pathname)`; the embedding abstracts the URL parsing and
takes the pathname directly. -/

inductive AssetKind where
  | image
  | subtitle
  | text
deriving DecidableEq, Repr

/-- `getAssetFilename` from `scrapeSegment.ts`: the extension variable is
pre-defaulted to `".webp"` by `extname(...) || '.webp'`, and the subtitle case
applies a further `ext || '.vtt'` fallback. -/
def getAssetFilename (pathname : String) (index : Nat) (kind : AssetKind) : String :=
  let ext := jsOr (extname pathname) ".webp"
  match kind with
  | .image => "page-" ++ padStart (toString (index + 1)) 3 '0' ++ ext
  | .subtitle => "sub-" ++ padStart (toString (index + 1)) 2 '0' ++ jsOr ext ".vtt"
  | .text => "text-" ++ padStart (toString (index + 1)) 2 '0' ++ ".txt"

/-! ## detectContentType (src/pipelines/scrapeSegment.ts) -/

/-- `detectContentType` from `scrapeSegment.ts`, translated if-chain by
if-chain.  Out-of-range indexing (`buffer[i]` on a short buffer) yields
`undefined` in JavaScript, so every magic-byte comparison on a missing index is
false; the embedding uses `List.get?` for the same effect. -/
def detectContentType (buffer : List Nat) (filename : String) : String :=
  if buffer.get? 0 = some 0xFF ∧ buffer.get? 1 = some 0xD8 ∧ buffer.get? 2 = some 0xFF then
    "image/jpeg"
  else if buffer.get? 0 = some 0x89 ∧ buffer.get? 1 = some 0x50 ∧
      buffer.get? 2 = some 0x4E ∧ buffer.get? 3 = some 0x47 then
    "image/png"
  else if buffer.get? 0 = some 0x52 ∧ buffer.get? 1 = some 0x49 ∧
      buffer.get? 2 = some 0x46 ∧ buffer.get? 3 = some 0x46 then
    "image/webp"
  else if buffer.get? 0 = some 0x47 ∧ buffer.get? 1 = some 0x49 ∧ buffer.get? 2 = some 0x46 then
    "image/gif"
  else
    let ext := lowerStr (extname filename)
    if ext = ".srt" then "text/plain"
    else if ext = ".vtt" then "text/vtt"
    else if ext = ".ass" ∨ ext = ".ssa" then "text/x-ssa"
    else if ext = ".sub" then "text/plain"
    else if ext = ".json" then "application/json"
    else if ext = ".txt" ∨ ext = ".html" then "text/plain"
    else if ext = ".json" then "application/json"
    else "application/octet-stream"

/-- Magic-byte sniffing as the specification phrases it: the buffer starts with
the given byte sequence. -/
def hasMagic (buffer : List Nat) (magic : List Nat) : Bool :=
  decide (buffer.take magic.length = magic)

/-- The extension table exactly as the specification lists it (no `.sub`
entry). -/
def specExtTable : List (String × String) :=
  [(".srt", "text/plain"), (".vtt", "text/vtt"), (".ass", "text/x-ssa"),
   (".ssa", "text/x-ssa"), (".json", "application/json"),
   (".txt", "text/plain"), (".html", "text/plain")]

/-- The content-type mapping exactly as the claim states it: four-byte GIF
magic `47 49 46 38` and no `.sub` extension entry. -/
def claimContentType (buffer : List Nat) (filename : String) : String :=
  if hasMagic buffer [0xFF, 0xD8, 0xFF] then "image/jpeg"
  else if hasMagic buffer [0x89, 0x50, 0x4E, 0x47] then "image/png"
  else if hasMagic buffer [0x52, 0x49, 0x46, 0x46] then "image/webp"
  else if hasMagic buffer [0x47, 0x49, 0x46, 0x38] then "image/gif"
  else
    match specExtTable.lookup (lowerStr (extname filename)) with
    | some ct => ct
    | none => "application/octet-stream"

/-- The extension table actually implemented by the code: it additionally maps
`.sub` to `text/plain`. -/
def codeExtTable : List (String × String) :=
  [(".srt", "text/plain"), (".vtt", "text/vtt"), (".ass", "text/x-ssa"),
   (".ssa", "text/x-ssa"), (".sub", "text/plain"), (".json", "application/json"),
   (".txt", "text/plain"), (".html", "text/plain")]

/-- The corrected spec-level mapping: GIF is recognised by the three-byte
prefix `47 49 46`, and `.sub` maps to `text/plain`. -/
def amendedContentType (buffer : List Nat) (filename : String) : String :=
  if hasMagic buffer [0xFF, 0xD8, 0xFF] then "image/jpeg"
  else if hasMagic buffer [0x89, 0x50, 0x4E, 0x47] then "image/png"
  else if hasMagic buffer [0x52, 0x49, 0x46, 0x46] then "image/webp"
  else if hasMagic buffer [0x47, 0x49, 0x46] then "image/gif"
  else
    match codeExtTable.lookup (lowerStr (extname filename)) with
    | some ct => ct
    | none => "application/octet-stream"

/-! ## Database model (src/services/supabase.ts)

Tables are lists of rows; row ids are allocated from a counter.  Timestamps
are natural numbers. -/

/-- A row of the `assets` table (the columns `insertAsset` writes). -/
structure Asset where
  id : Nat
  r2_key : String
  asset_type : String
  content_type : Option String
  bytes : Nat
  sha256 : String
  upload_source : String
deriving DecidableEq, Repr

/-- A row of the `segment_assets` join table. -/
structure SegmentAsset where
  segment_id : String
  asset_id : Nat
  role : String
deriving DecidableEq, Repr

/-- The ledger database state touched by the asset functions. -/
structure DB where
  assets : List Asset
  segmentAssets : List SegmentAsset
  nextAssetId : Nat
deriving DecidableEq, Repr

/-- `insertAsset` from `supabase.ts`: first look the key up in `assets` by
`r2_key` and reuse the existing row's id; otherwise insert a new row.  The
second lookup by `sha256` is advisory only — a hit is logged and a new row is
still inserted — so it is bound but never consulted. -/
def insertAsset (db : DB) (r2Key assetType : String) (bytes : Nat) (sha256 : String)
    (uploadSource : String) (contentType : Option String)
    (sourceUrl originalFilename : Option String) : DB × Nat :=
  match db.assets.find? (fun a => a.r2_key == r2Key) with
  | some existingByKey => (db, existingByKey.id)
  | none =>
    let _existingByHash := db.assets.find? (fun a => a.sha256 == sha256)
    let _unusedMetadata := (sourceUrl, originalFilename)
    let row : Asset :=
      { id := db.nextAssetId, r2_key := r2Key, asset_type := assetType,
        content_type := contentType, bytes := bytes, sha256 := sha256,
        upload_source := uploadSource }
    ({ db with assets := db.assets ++ [row], nextAssetId := db.nextAssetId + 1 }, row.id)

/-- `attachAssetToSegment` from `supabase.ts`: an upsert on conflict target
`(segment_id, asset_id)` with `ignoreDuplicates: true`, i.e. `ON CONFLICT DO
NOTHING` — an existing row for the pair is left untouched (its role is NOT
updated).  A database error does not throw: the function logs and returns
`false`; the `dbError` flag injects that path. -/
def attachAssetToSegment (dbError : Bool) (db : DB) (segmentId : String) (assetId : Nat)
    (role : Option String) : DB × Bool :=
  if dbError then (db, false)
  else
    match db.segmentAssets.find? (fun sa => sa.segment_id == segmentId && sa.asset_id == assetId) with
    | some _ => (db, true)
    | none =>
      let row : SegmentAsset :=
        { segment_id := segmentId, asset_id := assetId, role := jsOr (role.getD "") "page" }
      ({ db with segmentAssets := db.segmentAssets ++ [row] }, true)

/-! ## Content Store model (src/services/r2.ts) -/

/-- An object stored in the Content Store. -/
structure R2Object where
  bytes : List Nat
  contentType : String
deriving DecidableEq, Repr

/-- Overwriting put: `uploadToR2` issues a `PutObjectCommand` keyed by the
destination path, with `ContentType: contentType || 'application/octet-stream'`. -/
def uploadToR2 (r2 : List (String × R2Object)) (key : String) (body : List Nat)
    (contentType : Option String) : List (String × R2Object) :=
  (key, { bytes := body, contentType := jsOr (contentType.getD "") "application/octet-stream" })
    :: r2.filter (fun kv => kv.fst ≠ key)

/-- Combined remote state seen by `uploadAndRegisterAsset`. -/
structure WState where
  r2 : List (String × R2Object)
  db : DB
deriving DecidableEq, Repr

/-! ## uploadAndRegisterAsset (src/pipelines/scrapeSegment.ts)

The function runs a bounded retry loop over three steps: (1) put the buffer to
the Content Store — skipped once it has succeeded in this call, tracked by the
local `uploadedToR2` flag; (2) `insertAsset`; (3) `attachAssetToSegment`.  A
step that throws aborts the attempt and the loop retries from the top; after
the last attempt the function returns `false` instead of throwing.

Which call throws is injected by an `Oracle`; each executed remote call is
recorded as an `Event` so that the retry discipline can be stated.  A throwing
call is modelled as leaving the state unchanged. -/

/-- The three remote steps of one attempt. -/
inductive Step where
  | upload
  | register
  | attach
deriving DecidableEq, Repr

/-- One executed remote call: during which attempt, which step, and whether it
threw. -/
structure Event where
  attempt : Nat
  step : Step
  threw : Bool
deriving DecidableEq, Repr

/-- Environment oracle: the content hash (sha256 is not computed in the
model), which calls throw, and when `attachAssetToSegment` reports a database
error by returning `false`. -/
structure Oracle where
  hash : List Nat → String
  throws : Nat → Step → Bool
  attachErr : Nat → Bool

/-- The non-state arguments of one `uploadAndRegisterAsset` call. -/
structure UploadCall where
  buffer : List Nat
  r2Key : String
  assetType : String
  segmentId : String
  role : String
deriving DecidableEq, Repr

/-- Outcome of one iteration of the retry loop: either the attempt reached
`return true`, or some step threw and the loop continues with the updated
`uploadedToR2` flag. -/
inductive AttemptResult where
  | succeeded (s : WState) (events : List Event)
  | failed (s : WState) (uploaded : Bool) (events : List Event)
deriving DecidableEq, Repr

/-- One iteration of the retry loop body of `uploadAndRegisterAsset`. -/
def oneAttempt (o : Oracle) (c : UploadCall) (k : Nat) (uploaded : Bool) (s : WState) :
    AttemptResult :=
  let ct := detectContentType c.buffer c.r2Key
  if uploaded = false ∧ o.throws k Step.upload = true then
    .failed s false [⟨k, Step.upload, true⟩]
  else
    let upEvents : List Event := if uploaded then [] else [⟨k, Step.upload, false⟩]
    let s1 : WState := if uploaded then s else { s with r2 := uploadToR2 s.r2 c.r2Key c.buffer (some ct) }
    if o.throws k Step.register then
      .failed s1 true (upEvents ++ [⟨k, Step.register, true⟩])
    else
      let ins := insertAsset s1.db c.r2Key c.assetType c.buffer.length (o.hash c.buffer)
        "pipeline" (some ct) none none
      let s2 : WState := { s1 with db := ins.1 }
      if o.throws k Step.attach then
        .failed s2 true (upEvents ++ [⟨k, Step.register, false⟩, ⟨k, Step.attach, true⟩])
      else
        let att := attachAssetToSegment (o.attachErr k) s2.db c.segmentId ins.2 (some c.role)
        .succeeded { s2 with db := att.1 } (upEvents ++ [⟨k, Step.register, false⟩, ⟨k, Step.attach, false⟩])

/-- The retry loop: attempt index, remaining attempts, `uploadedToR2` flag.
Returns the final state, the returned boolean, and the trace of executed
remote calls. -/
def uploadAttempts (o : Oracle) (c : UploadCall) :
    Nat → Nat → Bool → WState → WState × Bool × List Event
  | _, 0, _, s => (s, false, [])
  | k, n + 1, uploaded, s =>
    match oneAttempt o c k uploaded s with
    | .succeeded s' evs => (s', true, evs)
    | .failed s' uploaded' evs =>
      let r := uploadAttempts o c (k + 1) n uploaded' s'
      (r.1, r.2.1, evs ++ r.2.2)

/-- `uploadAndRegisterAsset` from `scrapeSegment.ts`: run up to `retries`
attempts starting with the flag down. -/
def uploadAndRegisterAsset (o : Oracle) (c : UploadCall) (retries : Nat) (s : WState) :
    WState × Bool × List Event :=
  uploadAttempts o c 0 retries false s

/-- A successful Content Store put event. -/
def isPut (e : Event) : Bool :=
  e.step == Step.upload && !e.threw

/-! ## Job model (src/services/supabase.ts, pipeline_jobs table) -/

inductive JobStatus where
  | queued
  | running
  | success
  | failed
deriving DecidableEq, Repr

/-- A row of the `pipeline_jobs` table (the columns the worker touches; the
schema declares `attempt INTEGER NOT NULL DEFAULT 0`).  Payloads are opaque
strings; timestamps are naturals. -/
structure Job where
  id : Nat
  job_type : String
  status : JobStatus
  input : String
  output : Option String
  attempt : Nat
  error : Option String
  created_at : Nat
  started_at : Option Nat
  finished_at : Option Nat
deriving DecidableEq, Repr

/-- `createJob` from `supabase.ts`: insert a row with the given type and input
and `status: 'queued'`; every other column takes its schema default. -/
def createJob (id : Nat) (jobType : String) (input : String) (now : Nat) : Job :=
  { id := id, job_type := jobType, status := JobStatus.queued, input := input,
    output := none, attempt := 0, error := none, created_at := now,
    started_at := none, finished_at := none }

/-- Truthiness of an optional JavaScript string: `undefined` and `""` are
falsy. -/
def jsTruthy (o : Option String) : Bool :=
  match o with
  | some s => s != ""
  | none => false

/-- `updateJobStatus` from `supabase.ts`: build the update record — always the
status; the output when given; the error when a truthy message is given;
`started_at := now` for `running`; `finished_at := now` for `success` or
`failed` — and apply it to the row.  No column of the record touches
`attempt`. -/
def updateJobStatus (j : Job) (status : JobStatus) (output : Option String)
    (errorMsg : Option String) (now : Nat) : Job :=
  { j with
    status := status,
    output := if output.isSome then output else j.output,
    error := if jsTruthy errorMsg then errorMsg else j.error,
    started_at := if status = JobStatus.running then some now else j.started_at,
    finished_at :=
      if status = JobStatus.success ∨ status = JobStatus.failed then some now
      else j.finished_at }

/-- Row predicate for `status = 'queued'`. -/
def isQueued (j : Job) : Bool :=
  j.status == JobStatus.queued

/-- Ordering used by `getQueuedJobs`: `ORDER BY created_at ASC`. -/
def createdLe (a b : Job) : Prop :=
  a.created_at ≤ b.created_at

instance : DecidableRel createdLe := fun a b => Nat.decLe a.created_at b.created_at

instance : IsTotal Job createdLe := ⟨fun a b => Nat.le_total a.created_at b.created_at⟩

instance : IsTrans Job createdLe := ⟨fun _ _ _ => Nat.le_trans⟩

/-- `getQueuedJobs` from `supabase.ts`: select the rows with
`status = 'queued'`, order them by `created_at` ascending (a stable sort; no
priority column), and truncate to `limit` rows. -/
def getQueuedJobs (tbl : List Job) (limit : Nat) : List Job :=
  (List.insertionSort createdLe (tbl.filter isQueued)).take limit

/-- Rows with the given id transition to `running` (the `updateJobStatus`
call at the start of `processJob` in `jobRunner.ts`). -/
def markRunning (tbl : List Job) (i : Nat) (now : Nat) : List Job :=
  tbl.map (fun j => if j.id == i then updateJobStatus j JobStatus.running none none now else j)

/-- `pollOnce` from `jobRunner.ts`: fetch queued jobs with limit 1; when none
is returned report no work, otherwise process the fetched job — `processJob`
first sets it to `running`; the pipeline it then runs touches only the fresh
job that pipeline creates, so its effect on the polled rows is not modelled.
Returns the updated table and the dispatched job id. -/
def pollOnce (tbl : List Job) (now : Nat) : List Job × Option Nat :=
  match getQueuedJobs tbl 1 with
  | [] => (tbl, none)
  | j :: _ => (markRunning tbl j.id now, some j.id)

/-! ## scrapeSegment batch accounting and ordering
(src/pipelines/scrapeSegment.ts)

In every one of the three asset loops, the `getAssetFilename` call sits
OUTSIDE the per-item `try`, and its first step is `extname(new URL(url).pathname)`
— so an argument that `new URL` cannot parse throws out of the whole loop
into the outer catch, which marks the job `failed` (error only, no output).
Inside the `try` of an image iteration, a download failure is caught and
increments `failedCount`, and the `uploadAndRegisterAsset` boolean
increments exactly one of the two counters; subtitle and text iterations
never touch the counters. -/

/-- Final outcome of one image iteration's guarded body. -/
inductive ImgOutcome where
  | downloadFailed
  | uploadFailed
  | uploaded
deriving DecidableEq, Repr

/-- The `(successCount, failedCount)` accumulation of the image loop. -/
def imageCounts (outcomes : List ImgOutcome) : Nat × Nat :=
  outcomes.foldl
    (fun acc oc =>
      match oc with
      | ImgOutcome.uploaded => (acc.1 + 1, acc.2)
      | _ => (acc.1, acc.2 + 1))
    (0, 0)

/-- Data of one discovered image: the result of `new URL(imageUrl)` — `some
pathname` when it parses, `none` when the constructor throws — and the
outcome of the guarded download/upload body when it runs. -/
structure ImgItem where
  pathname : Option String
  outcome : ImgOutcome
deriving DecidableEq, Repr

/-- Terminal state of one `scrapeSegment` run: `success` carries the
`successCount`/`failedCount` pair written to the job output; `failed` is the
outer catch path, which records only an error text and writes no output. -/
inductive RunResult where
  | success (successCount failedCount : Nat)
  | failed
deriving DecidableEq, Repr

/-- The image loop.  `getAssetFilename(imageUrl, i, 'image')` is evaluated
before the per-item `try`, so an unparseable URL (`pathname = none`) throws
out of the whole loop and the partial counters are lost (`none`); otherwise
the guarded body increments exactly one of the two counters. -/
def runImageLoop : List ImgItem → Nat × Nat → Option (Nat × Nat)
  | [], acc => some acc
  | item :: rest, acc =>
    match item.pathname with
    | none => none
    | some _ =>
      match item.outcome with
      | ImgOutcome.uploaded => runImageLoop rest (acc.1 + 1, acc.2)
      | _ => runImageLoop rest (acc.1, acc.2 + 1)

/-- The subtitle loop touches neither counter (its try/catch only logs); its
only effect on the run's fate is the same out-of-try
`getAssetFilename(subUrl, i, 'subtitle')` call, which throws on an
unparseable URL (`false` = run aborted). -/
def runSubtitleLoop : List (Option String) → Bool
  | [] => true
  | none :: _ => false
  | some _ :: rest => runSubtitleLoop rest

/-- Control flow of one `scrapeSegment` run over the discovered items, from
the asset loops to the terminal job status.  The text loop calls
`getAssetFilename` on the bare relative name `text-i.txt`, again outside the
per-item `try`; `new URL('text-0.txt')` always throws, so a download-enabled
run that discovered any text aborts there and the job is marked `failed`.
After the loops, the run throws (job `failed`) exactly when no image
succeeded and at least one image was discovered; otherwise the job is marked
`success` with the two counters in its output. -/
def scrapeSegmentRun (download : Bool) (images : List ImgItem)
    (subtitles : List (Option String)) (nTexts : Nat) : RunResult :=
  if download then
    match runImageLoop images (0, 0) with
    | none => RunResult.failed
    | some counts =>
      if runSubtitleLoop subtitles then
        if 0 < nTexts then RunResult.failed
        else if counts.1 = 0 ∧ 0 < images.length then RunResult.failed
        else RunResult.success counts.1 counts.2
      else RunResult.failed
  else RunResult.success 0 0

/-- The externally visible steps of one `scrapeSegment` run, in program
order. -/
inductive SegEvent where
  | manifestPut
  | imageItem (i : Nat)
  | subtitleItem (i : Nat)
  | textItem (i : Nat)
deriving DecidableEq, Repr

/-- Control-flow skeleton of `scrapeSegment` after extraction: the manifest
(`assets.json`) is put to the Content Store unconditionally; then, only when
`download` is set, the image loop runs, then the subtitle loop, then the text
loop. -/
def scrapeSegmentEvents (download : Bool) (nImages nSubs nTexts : Nat) : List SegEvent :=
  [SegEvent.manifestPut] ++
    (if download then
      ((List.range nImages).map SegEvent.imageItem) ++
        ((List.range nSubs).map SegEvent.subtitleItem) ++
        ((List.range nTexts).map SegEvent.textItem)
    else [])

/-- Phase rank of a step: manifest before images before subtitles before
texts. -/
def segRank (e : SegEvent) : Nat :=
  match e with
  | SegEvent.manifestPut => 0
  | SegEvent.imageItem _ => 1
  | SegEvent.subtitleItem _ => 2
  | SegEvent.textItem _ => 3

/-- The remote-call trace of an attempt outcome. -/
def AttemptResult.events : AttemptResult → List Event
  | .succeeded _ evs => evs
  | .failed _ _ evs => evs

/-- The Content Store holds the call's buffer under the call's destination
key. -/
def R2HasBuffer (c : UploadCall) (s : WState) : Prop :=
  ∃ obj, s.r2.lookup c.r2Key = some obj ∧ obj.bytes = c.buffer

/-! ## Concrete fixtures used to instantiate the theorems -/

/-- A constant stand-in for the sha256 digest function. -/
def hashEx : List Nat → String := fun _ => "h"

/-- The oracle with the given digest function on which every remote call
succeeds. -/
def okOracle (hash : List Nat → String) : Oracle :=
  ⟨hash, fun _ _ => false, fun _ => false⟩

/-- Oracle on which every remote call succeeds. -/
def oracleOk : Oracle := okOracle hashEx

/-- Oracle on which `attachAssetToSegment` always reports a database error
(returns `false` without throwing). -/
def oracleAttachErr : Oracle := ⟨hashEx, fun _ _ => false, fun _ => true⟩

/-- Oracle on which every `insertAsset` call throws. -/
def oracleRegisterThrows : Oracle := ⟨hashEx, fun _ st => st == Step.register, fun _ => false⟩

/-- A concrete upload call. -/
def callEx : UploadCall := ⟨[1, 2], "k", "raw_image", "seg", "page"⟩

/-- Empty remote state. -/
def emptyState : WState := ⟨[], ⟨[], [], 0⟩⟩

/-- A queued scrape job with the given id and creation time. -/
def jobEx (i tim : Nat) : Job :=
  ⟨i, "scrape", JobStatus.queued, "", none, 0, none, tim, none, none⟩

/-- A jobs table holding three queued jobs out of creation order. -/
def tblEx : List Job := [jobEx 13 3, jobEx 11 1, jobEx 12 2]

/-! ## Supporting lemmas -/

/-- Three-byte magic sniffing agrees with JavaScript's indexed comparisons. -/
theorem hasMagic_three (l : List Nat) (x y z : Nat) :
    hasMagic l [x, y, z] = true ↔
      (l.get? 0 = some x ∧ l.get? 1 = some y ∧ l.get? 2 = some z) := by
  match l with
  | [] => simp [hasMagic]
  | [a] => simp [hasMagic, List.take]
  | [a, b] => simp [hasMagic, List.take]
  | a :: b :: c :: t => simp [hasMagic, List.take, and_assoc]

/-- Four-byte magic sniffing agrees with JavaScript's indexed comparisons. -/
theorem hasMagic_four (l : List Nat) (w x y z : Nat) :
    hasMagic l [w, x, y, z] = true ↔
      (l.get? 0 = some w ∧ l.get? 1 = some x ∧ l.get? 2 = some y ∧ l.get? 3 = some z) := by
  match l with
  | [] => simp [hasMagic]
  | [a] => simp [hasMagic, List.take]
  | [a, b] => simp [hasMagic, List.take]
  | [a, b, c] => simp [hasMagic, List.take]
  | a :: b :: c :: d :: t => simp [hasMagic, List.take, and_assoc]

/-- The code's extension if-chain computes lookup in `codeExtTable`. -/
theorem extChain_eq_lookup (e : String) :
    (if e = ".srt" then "text/plain"
     else if e = ".vtt" then "text/vtt"
     else if e = ".ass" ∨ e = ".ssa" then "text/x-ssa"
     else if e = ".sub" then "text/plain"
     else if e = ".json" then "application/json"
     else if e = ".txt" ∨ e = ".html" then "text/plain"
     else if e = ".json" then "application/json"
     else "application/octet-stream") =
      (match codeExtTable.lookup e with
       | some ct => ct
       | none => "application/octet-stream") := by
  unfold codeExtTable
  split_ifs with h1 h2 h3 h4 h5 h6
  · subst h1; rfl
  · subst h2; rfl
  · rcases h3 with h3 | h3 <;> subst h3 <;> rfl
  · subst h4; rfl
  · subst h5; rfl
  · rcases h6 with h6 | h6 <;> subst h6 <;> rfl
  · have h3a : (e == ".ass") = false := beq_eq_false_iff_ne.mpr (fun h => h3 (Or.inl h))
    have h3b : (e == ".ssa") = false := beq_eq_false_iff_ne.mpr (fun h => h3 (Or.inr h))
    have h6a : (e == ".txt") = false := beq_eq_false_iff_ne.mpr (fun h => h6 (Or.inl h))
    have h6b : (e == ".html") = false := beq_eq_false_iff_ne.mpr (fun h => h6 (Or.inr h))
    have e1 : (e == ".srt") = false := beq_eq_false_iff_ne.mpr h1
    have e2 : (e == ".vtt") = false := beq_eq_false_iff_ne.mpr h2
    have e4 : (e == ".sub") = false := beq_eq_false_iff_ne.mpr h4
    have e5 : (e == ".json") = false := beq_eq_false_iff_ne.mpr h5
    simp [List.lookup, e1, e2, e4, e5, h3a, h3b, h6a, h6b]

/-! ## Claim theorems -/

/-- C10: for every asset URL whose pathname has no file extension,
`getAssetFilename(url, i, 'subtitle')` produces `sub-NN.webp`: the extension
variable is pre-defaulted to `.webp`, so the later `ext || '.vtt'` subtitle
fallback is an identity and the `.vtt` default is unreachable. -/
theorem getAssetFilename_subtitle_default (p : String) (i : Nat)
    (hp : extname p = "") :
    getAssetFilename p i AssetKind.subtitle =
        "sub-" ++ padStart (toString (i + 1)) 2 '0' ++ ".webp" ∧
      (∃ u : String, getAssetFilename p i AssetKind.subtitle = u ++ ".webp") ∧
      (∀ q : String, jsOr (jsOr (extname q) ".webp") ".vtt" = jsOr (extname q) ".webp") := by
  have hvtt : ∀ q : String, jsOr (jsOr (extname q) ".webp") ".vtt" = jsOr (extname q) ".webp" := by
    intro q
    by_cases h : extname q = ""
    · rw [h]; rfl
    · have hx : jsOr (extname q) ".webp" = extname q := by rw [jsOr, if_neg h]
      rw [hx, jsOr, if_neg h]
  have hwebp : jsOr (extname p) ".webp" = ".webp" := by rw [hp]; rfl
  have hmain : getAssetFilename p i AssetKind.subtitle =
      "sub-" ++ padStart (toString (i + 1)) 2 '0' ++ ".webp" := by
    have hbody : getAssetFilename p i AssetKind.subtitle =
        "sub-" ++ padStart (toString (i + 1)) 2 '0' ++
          jsOr (jsOr (extname p) ".webp") ".vtt" := rfl
    rw [hbody, hvtt p, hwebp]
  exact ⟨hmain, ⟨"sub-" ++ padStart (toString (i + 1)) 2 '0', hmain⟩, hvtt⟩

/-- C10 witness: the pathname `/images/photo` has no extension and yields
`sub-01.webp` for subtitle index 0. -/
theorem getAssetFilename_subtitle_default_witness :
    extname "/images/photo" = "" ∧
      getAssetFilename "/images/photo" 0 AssetKind.subtitle = "sub-01.webp" := by
  constructor
  · decide
  · rw [(getAssetFilename_subtitle_default "/images/photo" 0 (by decide)).1]
    decide

/-- C6 counterexample: the code maps extension `.sub` to `text/plain`, which
the claim's mapping does not contain — the claim's default of
`application/octet-stream` for every unmapped extension fails at
`(buffer, filename) = ([], "a.sub")`. -/
theorem detectContentType_claim_counterexample :
    detectContentType [] "a.sub" = "text/plain" ∧
      claimContentType [] "a.sub" = "application/octet-stream" ∧
      detectContentType [] "a.sub" ≠ claimContentType [] "a.sub" := by
  refine ⟨by decide, by decide, by decide⟩

/-- C6 amended: `detectContentType` is a deterministic function of
`(buffer, filename)` that checks magic bytes before extension and implements
exactly: JPEG for prefix `FFD8FF`, PNG for `89504E47`, WEBP for RIFF
`52494646`, GIF for the three-byte prefix `474946`; otherwise by extension
`.srt→text/plain`, `.vtt→text/vtt`, `.ass/.ssa→text/x-ssa`,
`.sub→text/plain`, `.json→application/json`, `.txt/.html→text/plain`; and
`application/octet-stream` for every unmapped extension. -/
theorem detectContentType_mapping (buffer : List Nat) (filename : String) :
    detectContentType buffer filename = amendedContentType buffer filename := by
  have hext := extChain_eq_lookup (lowerStr (extname filename))
  unfold detectContentType amendedContentType
  simp only [hasMagic_three, hasMagic_four]
  rw [hext]

/-- Sum of the two counters equals the number of folded outcomes. -/
theorem imageCounts_sum (l : List ImgOutcome) :
    (imageCounts l).1 + (imageCounts l).2 = l.length := by
  have hsum : ∀ (m : List ImgOutcome) (acc : Nat × Nat),
      (m.foldl
          (fun acc oc =>
            match oc with
            | ImgOutcome.uploaded => (acc.1 + 1, acc.2)
            | _ => (acc.1, acc.2 + 1))
          acc).1 +
        (m.foldl
          (fun acc oc =>
            match oc with
            | ImgOutcome.uploaded => (acc.1 + 1, acc.2)
            | _ => (acc.1, acc.2 + 1))
          acc).2 = acc.1 + acc.2 + m.length := by
    intro m
    induction m with
    | nil => intro acc; simp
    | cons oc t ih =>
      intro acc
      cases oc <;> simp [List.foldl, ih] <;> omega
  have h0 := hsum l (0, 0)
  simpa using h0

/-- With every image URL parseable, the image loop completes and computes
exactly the outcome fold. -/
theorem runImageLoop_eq (images : List ImgItem)
    (himg : ∀ it ∈ images, it.pathname.isSome = true) :
    ∀ acc : Nat × Nat,
      runImageLoop images acc =
        some ((images.map ImgItem.outcome).foldl
          (fun acc oc =>
            match oc with
            | ImgOutcome.uploaded => (acc.1 + 1, acc.2)
            | _ => (acc.1, acc.2 + 1))
          acc) := by
  induction images with
  | nil => intro acc; rfl
  | cons item rest ih =>
    intro acc
    obtain ⟨p, hp⟩ := Option.isSome_iff_exists.mp (himg item (List.mem_cons_self item rest))
    have hrest : ∀ it ∈ rest, it.pathname.isSome = true :=
      fun it hi => himg it (List.mem_cons_of_mem _ hi)
    cases hoc : item.outcome <;>
      simp [runImageLoop, hp, hoc, ih hrest, List.foldl, List.map]

/-- The subtitle loop completes when every subtitle URL parses. -/
theorem runSubtitleLoop_total (subs : List (Option String))
    (hsub : ∀ p ∈ subs, p.isSome = true) : runSubtitleLoop subs = true := by
  induction subs with
  | nil => rfl
  | cons p rest ih =>
    obtain ⟨q, hq⟩ := Option.isSome_iff_exists.mp (hsub p (List.mem_cons_self p rest))
    rw [hq]
    exact ih (fun x hx => hsub x (List.mem_cons_of_mem _ hx))

/-- With the image loop completed and the subtitle loop completed, a
download-enabled run with no texts reduces to the final success-count
check. -/
theorem scrapeSegmentRun_reduce (images : List ImgItem) (subtitles : List (Option String))
    (counts : Nat × Nat)
    (h1 : runImageLoop images (0, 0) = some counts)
    (h2 : runSubtitleLoop subtitles = true) :
    scrapeSegmentRun true images subtitles 0 =
      (if counts.1 = 0 ∧ 0 < images.length then RunResult.failed
       else RunResult.success counts.1 counts.2) := by
  unfold scrapeSegmentRun
  rw [h1, h2]
  simp

/-- C4 counterexample: `getAssetFilename` is called outside the per-item
`try` and begins with `new URL(url)`; the text loop passes it the bare
relative name `text-0.txt`, which never parses as a URL, so a run whose
single image uploaded successfully but which discovered one text ends with
the job `failed` and no output — although `successCount = 1 > 0` — refuting
both `successCount + failedCount = N` of the final output and that the job
fails only when `successCount = 0` and `N > 0`. -/
theorem scrapeSegment_accounting_counterexample :
    scrapeSegmentRun true [⟨some "/pages/1.jpg", ImgOutcome.uploaded⟩] [] 1 =
        RunResult.failed ∧
      runImageLoop [⟨some "/pages/1.jpg", ImgOutcome.uploaded⟩] (0, 0) = some (1, 0) ∧
      ¬ ((1 : Nat) = 0 ∧ 0 < 1) :=
  ⟨by decide, by decide, by decide⟩

/-- C4 amended: for a download-enabled run over N discovered images in which
every image and subtitle URL parses (`new URL` does not throw) and no text
items were discovered, the image loop completes, each image increments
exactly one of the two counters (`successCount + failedCount = N`), and the
job ends `success` exactly when some image succeeded or N = 0, `failed`
exactly when none succeeded and N > 0.  A non-empty text list or an
unparseable URL instead aborts the run at the out-of-try `getAssetFilename`
call and the job is marked `failed` regardless of the counters. -/
theorem scrapeSegment_batch_accounting (images : List ImgItem)
    (subtitles : List (Option String))
    (himg : ∀ it ∈ images, it.pathname.isSome = true)
    (hsub : ∀ p ∈ subtitles, p.isSome = true) :
    ∃ sc fc : Nat,
      runImageLoop images (0, 0) = some (sc, fc) ∧
        (sc, fc) = imageCounts (images.map ImgItem.outcome) ∧
        sc + fc = images.length ∧
        (scrapeSegmentRun true images subtitles 0 = RunResult.success sc fc ↔
          (0 < sc ∨ images.length = 0)) ∧
        (scrapeSegmentRun true images subtitles 0 = RunResult.failed ↔
          (sc = 0 ∧ 0 < images.length)) := by
  have hrun : runImageLoop images (0, 0) = some (imageCounts (images.map ImgItem.outcome)) :=
    runImageLoop_eq images himg (0, 0)
  have hred := scrapeSegmentRun_reduce images subtitles
    (imageCounts (images.map ImgItem.outcome)) hrun (runSubtitleLoop_total subtitles hsub)
  have hsum : (imageCounts (images.map ImgItem.outcome)).1 +
      (imageCounts (images.map ImgItem.outcome)).2 = images.length := by
    rw [imageCounts_sum (images.map ImgItem.outcome), List.length_map]
  refine ⟨(imageCounts (images.map ImgItem.outcome)).1,
    (imageCounts (images.map ImgItem.outcome)).2, hrun, rfl, hsum, ?_, ?_⟩
  · rw [hred]
    split_ifs with h
    · obtain ⟨hz, hl⟩ := h
      constructor
      · intro hh
        exact hh.elim
      · intro hor
        exfalso
        rcases hor with hpos | hzero
        · omega
        · omega
    · constructor
      · intro _
        by_cases hl : 0 < images.length
        · by_cases hz : (imageCounts (images.map ImgItem.outcome)).1 = 0
          · exact absurd ⟨hz, hl⟩ h
          · exact Or.inl (Nat.pos_of_ne_zero hz)
        · exact Or.inr (by omega)
      · intro _
        rfl
  · rw [hred]
    split_ifs with h
    · exact ⟨fun _ => h, fun _ => rfl⟩
    · constructor
      · intro hh
        exact hh.elim
      · intro hc
        exact absurd hc h

/-- C4 amended witness: the accounting theorem on one successfully uploaded
image, no subtitles and no texts. -/
theorem scrapeSegment_batch_accounting_witness :
    ∃ sc fc : Nat,
      runImageLoop [⟨some "/pages/1.jpg", ImgOutcome.uploaded⟩] (0, 0) = some (sc, fc) ∧
        (sc, fc) = imageCounts ([⟨some "/pages/1.jpg", ImgOutcome.uploaded⟩].map
          ImgItem.outcome) ∧
        sc + fc = 1 ∧
        (scrapeSegmentRun true [⟨some "/pages/1.jpg", ImgOutcome.uploaded⟩] [] 0 =
            RunResult.success sc fc ↔ (0 < sc ∨ 1 = 0)) ∧
        (scrapeSegmentRun true [⟨some "/pages/1.jpg", ImgOutcome.uploaded⟩] [] 0 =
            RunResult.failed ↔ (sc = 0 ∧ 0 < 1)) :=
  scrapeSegment_batch_accounting [⟨some "/pages/1.jpg", ImgOutcome.uploaded⟩] []
    (by decide) (by simp)

/-- C7: the manifest put is the first step of every `scrapeSegment` run,
regardless of the download flag, and when the asset loops run, every image
item precedes every subtitle item, which precedes every text item. -/
theorem scrapeSegment_ordering (download : Bool) (nImages nSubs nTexts : Nat) :
    (scrapeSegmentEvents download nImages nSubs nTexts).head? = some SegEvent.manifestPut ∧
      SegEvent.manifestPut ∈ scrapeSegmentEvents download nImages nSubs nTexts ∧
      List.Pairwise (fun a b => segRank a ≤ segRank b)
        (scrapeSegmentEvents download nImages nSubs nTexts) := by
  have hconst : ∀ {α : Type} (R : α → α → Prop), (∀ a b, R a b) →
      ∀ l : List α, List.Pairwise R l := by
    intro α R h l
    induction l with
    | nil => exact List.Pairwise.nil
    | cons a t ih => exact List.Pairwise.cons (fun b _ => h a b) ih
  have hmap : ∀ (f : Nat → SegEvent), (∀ i j : Nat, segRank (f i) ≤ segRank (f j)) →
      ∀ n, List.Pairwise (fun a b => segRank a ≤ segRank b) (List.map f (List.range n)) := by
    intro f hf n
    exact List.pairwise_map.mpr (hconst _ (fun a b => hf a b) _)
  refine ⟨?_, ?_, ?_⟩
  · cases download <;> simp [scrapeSegmentEvents]
  · cases download <;> simp [scrapeSegmentEvents]
  · cases download
    · simp [scrapeSegmentEvents]
    · show List.Pairwise _ (SegEvent.manifestPut ::
        (List.map SegEvent.imageItem (List.range nImages) ++
          List.map SegEvent.subtitleItem (List.range nSubs) ++
          List.map SegEvent.textItem (List.range nTexts)))
      refine List.Pairwise.cons (fun b _ => Nat.zero_le _) ?_
      rw [List.pairwise_append]
      refine ⟨?_, ?_, ?_⟩
      · rw [List.pairwise_append]
        refine ⟨hmap SegEvent.imageItem (fun i j => Nat.le_refl 1) nImages,
          hmap SegEvent.subtitleItem (fun i j => Nat.le_refl 2) nSubs, ?_⟩
        intro a ha b hb
        obtain ⟨i, -, rfl⟩ := List.mem_map.mp ha
        obtain ⟨j, -, rfl⟩ := List.mem_map.mp hb
        exact Nat.le_succ 1
      · exact hmap SegEvent.textItem (fun i j => Nat.le_refl 3) nTexts
      · intro a ha b hb
        obtain ⟨j, -, rfl⟩ := List.mem_map.mp hb
        rcases List.mem_append.mp ha with ha | ha <;>
          obtain ⟨i, -, rfl⟩ := List.mem_map.mp ha
        · exact (by decide : (1 : Nat) ≤ 3)
        · exact Nat.le_succ 2

/-- C8 counterexample: the claim says the transition to `running` increments
the attempt counter; `updateJobStatus` never touches `attempt` — on a freshly
created job the counter stays 0 instead of becoming 1. -/
theorem updateJobStatus_attempt_not_incremented :
    (updateJobStatus (createJob 1 "scrape" "in" 0) JobStatus.running none none 7).attempt = 0 ∧
      ¬ (updateJobStatus (createJob 1 "scrape" "in" 0) JobStatus.running none none 7).attempt =
          (createJob 1 "scrape" "in" 0).attempt + 1 := by
  refine ⟨by decide, by decide⟩

/-- C8 amended: a job is created in status `queued` (with `attempt` at its
schema default 0); the transition to `running` stamps the start time and
leaves the attempt counter unchanged; a terminal transition to `success` or
`failed` stamps the finish time, and a `failed` transition with a non-empty
error message records the error text. -/
theorem job_lifecycle (id : Nat) (jobType input : String) (t0 t1 t2 : Nat)
    (j : Job) (output : Option String) (msg : String) (hmsg : msg ≠ "") :
    (createJob id jobType input t0).status = JobStatus.queued ∧
      (createJob id jobType input t0).attempt = 0 ∧
      (updateJobStatus j JobStatus.running none none t1).status = JobStatus.running ∧
      (updateJobStatus j JobStatus.running none none t1).started_at = some t1 ∧
      (updateJobStatus j JobStatus.running none none t1).attempt = j.attempt ∧
      (updateJobStatus j JobStatus.running none none t1).finished_at = j.finished_at ∧
      (∀ st, (st = JobStatus.success ∨ st = JobStatus.failed) →
        (updateJobStatus j st output (some msg) t2).finished_at = some t2) ∧
      (updateJobStatus j JobStatus.failed output (some msg) t2).status = JobStatus.failed ∧
      (updateJobStatus j JobStatus.failed output (some msg) t2).error = some msg := by
  refine ⟨rfl, rfl, rfl, rfl, rfl, by simp [updateJobStatus], ?_, rfl, ?_⟩
  · intro st hst
    rcases hst with rfl | rfl <;> simp [updateJobStatus]
  · simp [updateJobStatus, jsTruthy, hmsg]

/-- C8 amended witness: the lifecycle theorem evaluated on a concrete job and
message. -/
theorem job_lifecycle_witness :
    (createJob 2 "scrape" "x" 3).status = JobStatus.queued ∧
      (updateJobStatus (createJob 2 "scrape" "x" 3) JobStatus.failed none (some "boom") 9).error =
        some "boom" := by
  have h := job_lifecycle 2 "scrape" "x" 3 5 9 (createJob 2 "scrape" "x" 3) none "boom" (by decide)
  exact ⟨h.1, h.2.2.2.2.2.2.2.2⟩

/-- C5: two `insertAsset` calls with distinct storage keys but identical
sha256 digests both insert and keep their own Asset row — the digest match is
advisory only — and reuse happens only when a row with the same `r2_key`
already exists. -/
theorem insertAsset_hash_advisory (db : DB) (k1 k2 t : String) (b1 b2 : Nat)
    (sha src : String) (ct1 ct2 : Option String)
    (hne : k1 ≠ k2)
    (h1 : ∀ a ∈ db.assets, a.r2_key ≠ k1)
    (h2 : ∀ a ∈ db.assets, a.r2_key ≠ k2) :
    let r1 := insertAsset db k1 t b1 sha src ct1 none none
    let r2 := insertAsset r1.1 k2 t b2 sha src ct2 none none
    (r1.2 ≠ r2.2 ∧
      (∃ a1 a2 : Asset, r2.1.assets = db.assets ++ [a1, a2] ∧
        a1.id = r1.2 ∧ a2.id = r2.2 ∧ a1.r2_key = k1 ∧ a2.r2_key = k2 ∧
        a1.sha256 = sha ∧ a2.sha256 = sha)) ∧
      (∀ (db' : DB) (key : String) (a : Asset),
        db'.assets.find? (fun x => x.r2_key == key) = some a →
        insertAsset db' key t b1 sha src ct1 none none = (db', a.id)) := by
  intro r1 r2
  have hf1 : db.assets.find? (fun a => a.r2_key == k1) = none :=
    List.find?_eq_none.mpr (fun a ha => by simpa using h1 a ha)
  have hr1 : r1 =
      ({ db with
          assets := db.assets ++ [⟨db.nextAssetId, k1, t, ct1, b1, sha, src⟩],
          nextAssetId := db.nextAssetId + 1 }, db.nextAssetId) := by
    show insertAsset db k1 t b1 sha src ct1 none none = _
    unfold insertAsset
    rw [hf1]
  have hf2a : db.assets.find? (fun a => a.r2_key == k2) = none :=
    List.find?_eq_none.mpr (fun a ha => by simpa using h2 a ha)
  have hf2 : r1.1.assets.find? (fun a => a.r2_key == k2) = none := by
    rw [hr1, List.find?_append, hf2a]
    have hb : (k1 == k2) = false := beq_eq_false_iff_ne.mpr hne
    simp [List.find?, hb]
  have hr2 : r2 =
      ({ r1.1 with
          assets := r1.1.assets ++ [⟨r1.1.nextAssetId, k2, t, ct2, b2, sha, src⟩],
          nextAssetId := r1.1.nextAssetId + 1 }, r1.1.nextAssetId) := by
    show insertAsset r1.1 k2 t b2 sha src ct2 none none = _
    unfold insertAsset
    rw [hf2]
  refine ⟨⟨?_, ?_⟩, ?_⟩
  · rw [hr2, hr1]
    simp
  · refine ⟨⟨db.nextAssetId, k1, t, ct1, b1, sha, src⟩,
      ⟨db.nextAssetId + 1, k2, t, ct2, b2, sha, src⟩, ?_, ?_, ?_, rfl, rfl, rfl, rfl⟩
    · rw [hr2, hr1]
      simp
    · rw [hr1]
    · rw [hr2, hr1]
  · intro db' key a hf
    unfold insertAsset
    rw [hf]

/-- C5 witness: two fresh keys with the same digest on the empty database
produce two distinct asset ids. -/
theorem insertAsset_hash_advisory_witness :
    (insertAsset ⟨[], [], 0⟩ "k1" "raw_image" 1 "h" "pipeline" none none none).2 ≠
      (insertAsset (insertAsset ⟨[], [], 0⟩ "k1" "raw_image" 1 "h" "pipeline" none none none).1
        "k2" "raw_image" 1 "h" "pipeline" none none none).2 :=
  ((insertAsset_hash_advisory ⟨[], [], 0⟩ "k1" "k2" "raw_image" 1 1 "h" "pipeline" none none
    (by decide) (by simp) (by simp)).1).1

/-! ## FIFO polling lemmas -/

/-- A sorted list that is a permutation of `m` starts with the element of `m`
that has strictly the smallest `created_at`. -/
theorem sorted_perm_head (l m : List Job) (j : Job)
    (hp : l.Perm m) (hs : List.Sorted createdLe l) (hj : j ∈ m)
    (hmin : ∀ x ∈ m, x ≠ j → j.created_at < x.created_at) :
    l.head? = some j := by
  have hjl : j ∈ l := hp.mem_iff.mpr hj
  cases l with
  | nil => cases hjl
  | cons h t =>
    by_cases hcase : h = j
    · simp [hcase]
    · exfalso
      have hhm : h ∈ m := hp.subset (List.mem_cons_self h t)
      have hlt : j.created_at < h.created_at := hmin h hhm hcase
      have hjt : j ∈ t := by
        rcases List.mem_cons.mp hjl with he | ht
        · exact absurd he.symm hcase
        · exact ht
      have hle : createdLe h j := (List.sorted_cons.mp hs).1 j hjt
      unfold createdLe at hle
      omega

/-- `getQueuedJobs` with limit 1 returns exactly the queued job with strictly
the smallest creation time. -/
theorem getQueuedJobs_head (tbl m : List Job) (j : Job)
    (hp : (tbl.filter isQueued).Perm m) (hj : j ∈ m)
    (hmin : ∀ x ∈ m, x ≠ j → j.created_at < x.created_at) :
    getQueuedJobs tbl 1 = [j] := by
  have hs := List.sorted_insertionSort createdLe (tbl.filter isQueued)
  have hperm := (List.perm_insertionSort createdLe (tbl.filter isQueued)).trans hp
  have hh := sorted_perm_head _ m j hperm hs hj hmin
  unfold getQueuedJobs
  cases hl : List.insertionSort createdLe (tbl.filter isQueued) with
  | nil => rw [hl] at hh; cases hh
  | cons a t =>
    rw [hl] at hh
    have ha : a = j := by simpa using hh
    rw [ha]
    rfl

/-- Marking a job id as running removes exactly that id from the queued
filter. -/
theorem filter_markRunning (tbl : List Job) (i now : Nat) :
    (markRunning tbl i now).filter isQueued =
      tbl.filter (fun j => isQueued j && !(j.id == i)) := by
  induction tbl with
  | nil => rfl
  | cons a t ih =>
    unfold markRunning at ih ⊢
    by_cases hid : a.id == i
    · simp only [List.map_cons, if_pos hid, List.filter_cons]
      rw [ih]
      have hnq : isQueued (updateJobStatus a JobStatus.running none none now) = false := rfl
      simp [hnq, hid]
    · simp only [List.map_cons, if_neg hid, List.filter_cons]
      rw [ih]
      by_cases hq : isQueued a <;> simp [hq, hid]

/-- C9: with three queued jobs of strictly increasing creation times (and
distinct ids), three successive `pollOnce` calls dispatch them oldest first;
and in general `getQueuedJobs` returns only queued rows, sorted by
`created_at` ascending, truncated to the requested limit. -/
theorem pollOnce_fifo (tbl : List Job) (j1 j2 j3 : Job) (n1 n2 n3 : Nat)
    (hperm : (tbl.filter isQueued).Perm [j1, j2, j3])
    (h12 : j1.created_at < j2.created_at) (h23 : j2.created_at < j3.created_at)
    (hid12 : j1.id ≠ j2.id) (hid13 : j1.id ≠ j3.id) (hid23 : j2.id ≠ j3.id) :
    (pollOnce tbl n1).2 = some j1.id ∧
      (pollOnce (pollOnce tbl n1).1 n2).2 = some j2.id ∧
      (pollOnce (pollOnce (pollOnce tbl n1).1 n2).1 n3).2 = some j3.id ∧
      (∀ (tbl' : List Job) (limit : Nat),
        List.Sorted createdLe (getQueuedJobs tbl' limit) ∧
          (getQueuedJobs tbl' limit).length ≤ limit ∧
          ∀ jx ∈ getQueuedJobs tbl' limit, jx.status = JobStatus.queued) := by
  have hgen : ∀ (tbl' : List Job) (limit : Nat),
      List.Sorted createdLe (getQueuedJobs tbl' limit) ∧
        (getQueuedJobs tbl' limit).length ≤ limit ∧
        ∀ jx ∈ getQueuedJobs tbl' limit, jx.status = JobStatus.queued := by
    intro tbl' limit
    refine ⟨?_, ?_, ?_⟩
    · exact List.Pairwise.sublist (List.take_sublist _ _)
        (List.sorted_insertionSort createdLe (tbl'.filter isQueued))
    · show (List.take limit (List.insertionSort createdLe (tbl'.filter isQueued))).length ≤ limit
      rw [List.length_take]
      exact inf_le_left
    · intro jx hjx
      have hx1 : jx ∈ List.insertionSort createdLe (tbl'.filter isQueued) :=
        List.mem_of_mem_take hjx
      have hx2 : jx ∈ tbl'.filter isQueued :=
        (List.perm_insertionSort createdLe _).mem_iff.mp hx1
      have hx3 := (List.mem_filter.mp hx2).2
      simpa [isQueued] using hx3
  have hmin1 : ∀ x ∈ [j1, j2, j3], x ≠ j1 → j1.created_at < x.created_at := by
    intro x hx hxne
    rcases List.mem_cons.mp hx with rfl | hx
    · exact absurd rfl hxne
    rcases List.mem_cons.mp hx with rfl | hx
    · exact h12
    rcases List.mem_cons.mp hx with rfl | hx
    · exact Nat.lt_trans h12 h23
    · cases hx
  have hg1 : getQueuedJobs tbl 1 = [j1] :=
    getQueuedJobs_head tbl [j1, j2, j3] j1 hperm (by simp) hmin1
  have hpoll1 : pollOnce tbl n1 = (markRunning tbl j1.id n1, some j1.id) := by
    unfold pollOnce
    rw [hg1]
  have hfilt1 : ((markRunning tbl j1.id n1).filter isQueued).Perm [j2, j3] := by
    rw [filter_markRunning]
    have heq : tbl.filter (fun j => isQueued j && !(j.id == j1.id)) =
        (tbl.filter isQueued).filter (fun j => !(j.id == j1.id)) := by
      rw [List.filter_filter]
      congr 1
      funext a
      exact Bool.and_comm _ _
    rw [heq]
    have hstep := hperm.filter (fun j => !(j.id == j1.id))
    have e2 : (j2.id == j1.id) = false := beq_eq_false_iff_ne.mpr (Ne.symm hid12)
    have e3 : (j3.id == j1.id) = false := beq_eq_false_iff_ne.mpr (Ne.symm hid13)
    have hres : List.filter (fun j => !(j.id == j1.id)) [j1, j2, j3] = [j2, j3] := by
      simp [List.filter, e2, e3]
    rw [hres] at hstep
    exact hstep
  have hmin2 : ∀ x ∈ [j2, j3], x ≠ j2 → j2.created_at < x.created_at := by
    intro x hx hxne
    rcases List.mem_cons.mp hx with rfl | hx
    · exact absurd rfl hxne
    rcases List.mem_cons.mp hx with rfl | hx
    · exact h23
    · cases hx
  have hg2 : getQueuedJobs (markRunning tbl j1.id n1) 1 = [j2] :=
    getQueuedJobs_head _ [j2, j3] j2 hfilt1 (by simp) hmin2
  have hpoll2 : pollOnce (markRunning tbl j1.id n1) n2 =
      (markRunning (markRunning tbl j1.id n1) j2.id n2, some j2.id) := by
    unfold pollOnce
    rw [hg2]
  have hfilt2 :
      ((markRunning (markRunning tbl j1.id n1) j2.id n2).filter isQueued).Perm [j3] := by
    rw [filter_markRunning]
    have heq : (markRunning tbl j1.id n1).filter (fun j => isQueued j && !(j.id == j2.id)) =
        ((markRunning tbl j1.id n1).filter isQueued).filter (fun j => !(j.id == j2.id)) := by
      rw [List.filter_filter]
      congr 1
      funext a
      exact Bool.and_comm _ _
    rw [heq]
    have hstep := hfilt1.filter (fun j => !(j.id == j2.id))
    have e3 : (j3.id == j2.id) = false := beq_eq_false_iff_ne.mpr (Ne.symm hid23)
    have hres : List.filter (fun j => !(j.id == j2.id)) [j2, j3] = [j3] := by
      simp [List.filter, e3]
    rw [hres] at hstep
    exact hstep
  have hmin3 : ∀ x ∈ [j3], x ≠ j3 → j3.created_at < x.created_at := by
    intro x hx hxne
    rcases List.mem_cons.mp hx with rfl | hx
    · exact absurd rfl hxne
    · cases hx
  have hg3 : getQueuedJobs (markRunning (markRunning tbl j1.id n1) j2.id n2) 1 = [j3] :=
    getQueuedJobs_head _ [j3] j3 hfilt2 (by simp) hmin3
  have hpoll3 : pollOnce (markRunning (markRunning tbl j1.id n1) j2.id n2) n3 =
      (markRunning (markRunning (markRunning tbl j1.id n1) j2.id n2) j3.id n3, some j3.id) := by
    unfold pollOnce
    rw [hg3]
  have e1 : (pollOnce tbl n1).1 = markRunning tbl j1.id n1 := by rw [hpoll1]
  have d1 : (pollOnce tbl n1).2 = some j1.id := by rw [hpoll1]
  have e2 : (pollOnce (markRunning tbl j1.id n1) n2).1 =
      markRunning (markRunning tbl j1.id n1) j2.id n2 := by rw [hpoll2]
  have d2 : (pollOnce (markRunning tbl j1.id n1) n2).2 = some j2.id := by rw [hpoll2]
  have d3 : (pollOnce (markRunning (markRunning tbl j1.id n1) j2.id n2) n3).2 = some j3.id := by
    rw [hpoll3]
  refine ⟨d1, ?_, ?_, hgen⟩
  · rw [e1, d2]
  · rw [e1, e2, d3]

/-! ## Behaviour of the ledger operations -/

/-- With no existing row for the key, `insertAsset` appends a fresh row and
returns the fresh id. -/
theorem insertAsset_fresh (db : DB) (k t : String) (b : Nat) (sha src : String)
    (ct su oF : Option String)
    (h : db.assets.find? (fun a => a.r2_key == k) = none) :
    insertAsset db k t b sha src ct su oF =
      ({ db with
          assets := db.assets ++ [⟨db.nextAssetId, k, t, ct, b, sha, src⟩],
          nextAssetId := db.nextAssetId + 1 }, db.nextAssetId) := by
  unfold insertAsset
  rw [h]

/-- With an existing row for the key, `insertAsset` reuses its id and leaves
the database unchanged. -/
theorem insertAsset_reuse (db : DB) (k t : String) (b : Nat) (sha src : String)
    (ct su oF : Option String) (a : Asset)
    (h : db.assets.find? (fun x => x.r2_key == k) = some a) :
    insertAsset db k t b sha src ct su oF = (db, a.id) := by
  unfold insertAsset
  rw [h]

/-- `insertAsset` always leaves an asset row carrying the key, and returns its
id. -/
theorem insertAsset_mem_key (db : DB) (k t : String) (b : Nat) (sha src : String)
    (ct su oF : Option String) :
    ∃ a ∈ (insertAsset db k t b sha src ct su oF).1.assets,
      a.r2_key = k ∧ a.id = (insertAsset db k t b sha src ct su oF).2 := by
  cases hf : db.assets.find? (fun a => a.r2_key == k) with
  | none =>
    rw [insertAsset_fresh db k t b sha src ct su oF hf]
    exact ⟨⟨db.nextAssetId, k, t, ct, b, sha, src⟩, by simp, rfl, rfl⟩
  | some a =>
    rw [insertAsset_reuse db k t b sha src ct su oF a hf]
    exact ⟨a, List.mem_of_find?_eq_some hf, by simpa using List.find?_some hf, rfl⟩

/-- `insertAsset` never touches the `segment_assets` table. -/
theorem insertAsset_segmentAssets (db : DB) (k t : String) (b : Nat) (sha src : String)
    (ct su oF : Option String) :
    (insertAsset db k t b sha src ct su oF).1.segmentAssets = db.segmentAssets := by
  cases hf : db.assets.find? (fun a => a.r2_key == k) with
  | none => rw [insertAsset_fresh db k t b sha src ct su oF hf]
  | some a => rw [insertAsset_reuse db k t b sha src ct su oF a hf]

/-- Without a database error and with no existing row for the pair,
`attachAssetToSegment` appends the join row. -/
theorem attach_fresh (db : DB) (seg : String) (aid : Nat) (role : Option String)
    (h : db.segmentAssets.find? (fun sa => sa.segment_id == seg && sa.asset_id == aid) = none) :
    attachAssetToSegment false db seg aid role =
      ({ db with
          segmentAssets := db.segmentAssets ++ [⟨seg, aid, jsOr (role.getD "") "page"⟩] },
        true) := by
  unfold attachAssetToSegment
  rw [if_neg (by decide : ¬((false : Bool) = true)), h]

/-- Without a database error and with an existing row for the pair,
`attachAssetToSegment` is a no-op returning `true` (the existing row keeps its
role). -/
theorem attach_exists (db : DB) (seg : String) (aid : Nat) (role : Option String) (sa : SegmentAsset)
    (h : db.segmentAssets.find? (fun x => x.segment_id == seg && x.asset_id == aid) = some sa) :
    attachAssetToSegment false db seg aid role = (db, true) := by
  unfold attachAssetToSegment
  rw [if_neg (by decide : ¬((false : Bool) = true)), h]

/-- Without a database error, `attachAssetToSegment` reports success, keeps
the assets table, and leaves a join row for the pair. -/
theorem attach_ok (db : DB) (seg : String) (aid : Nat) (role : Option String) :
    (attachAssetToSegment false db seg aid role).2 = true ∧
      (attachAssetToSegment false db seg aid role).1.assets = db.assets ∧
      ∃ sa ∈ (attachAssetToSegment false db seg aid role).1.segmentAssets,
        sa.segment_id = seg ∧ sa.asset_id = aid := by
  cases hf : db.segmentAssets.find? (fun sa => sa.segment_id == seg && sa.asset_id == aid) with
  | none =>
    rw [attach_fresh db seg aid role hf]
    exact ⟨rfl, rfl, ⟨seg, aid, jsOr (role.getD "") "page"⟩, by simp, rfl, rfl⟩
  | some sa =>
    rw [attach_exists db seg aid role sa hf]
    have hp := List.find?_some hf
    have hmem := List.mem_of_find?_eq_some hf
    refine ⟨rfl, rfl, sa, hmem, ?_, ?_⟩
    · have := (Bool.and_eq_true _ _).mp hp
      simpa using this.1
    · have := (Bool.and_eq_true _ _).mp hp
      simpa using this.2

/-- `attachAssetToSegment` never touches the assets table, whatever the error
flag. -/
theorem attach_assets_any (f : Bool) (db : DB) (seg : String) (aid : Nat) (role : Option String) :
    (attachAssetToSegment f db seg aid role).1.assets = db.assets := by
  cases f with
  | true => rfl
  | false =>
    cases hf : db.segmentAssets.find? (fun sa => sa.segment_id == seg && sa.asset_id == aid) with
    | none => rw [attach_fresh db seg aid role hf]
    | some sa => rw [attach_exists db seg aid role sa hf]

/-- The put issued by `uploadToR2` is visible under the destination key. -/
theorem lookup_uploadToR2 (r2 : List (String × R2Object)) (key : String) (body : List Nat)
    (ct : Option String) :
    (uploadToR2 r2 key body ct).lookup key =
      some { bytes := body, contentType := jsOr (ct.getD "") "application/octet-stream" } := by
  simp [uploadToR2, List.lookup]

/-- C9 witness: the FIFO theorem evaluated on a concrete three-job table
queued out of order. -/
theorem pollOnce_fifo_witness :
    (pollOnce tblEx 100).2 = some 11 ∧
      (pollOnce (pollOnce tblEx 100).1 101).2 = some 12 ∧
      (pollOnce (pollOnce (pollOnce tblEx 100).1 101).1 102).2 = some 13 := by
  have h := pollOnce_fifo tblEx (jobEx 11 1) (jobEx 12 2) (jobEx 13 3) 100 101 102
    (by decide) (by decide) (by decide) (by decide) (by decide) (by decide)
  exact ⟨h.1, h.2.1, h.2.2.1⟩


/-- Exhaustive characterisation of one iteration of the retry loop body: the
upload throws, the registration throws, the attachment throws, or the attempt
reaches `return true`. -/
theorem oneAttempt_cases (o : Oracle) (c : UploadCall) (k : Nat) (u : Bool) (s : WState) :
    (u = false ∧ o.throws k Step.upload = true ∧
      oneAttempt o c k u s = .failed s false [⟨k, Step.upload, true⟩]) ∨
    ((u = true ∨ o.throws k Step.upload = false) ∧ o.throws k Step.register = true ∧
      oneAttempt o c k u s =
        .failed
          ⟨if u then s.r2 else uploadToR2 s.r2 c.r2Key c.buffer
              (some (detectContentType c.buffer c.r2Key)), s.db⟩
          true
          ((if u then ([] : List Event) else [⟨k, Step.upload, false⟩]) ++
            [⟨k, Step.register, true⟩])) ∨
    ((u = true ∨ o.throws k Step.upload = false) ∧ o.throws k Step.register = false ∧
      o.throws k Step.attach = true ∧
      oneAttempt o c k u s =
        .failed
          ⟨if u then s.r2 else uploadToR2 s.r2 c.r2Key c.buffer
              (some (detectContentType c.buffer c.r2Key)),
            (insertAsset s.db c.r2Key c.assetType c.buffer.length (o.hash c.buffer) "pipeline"
              (some (detectContentType c.buffer c.r2Key)) none none).1⟩
          true
          ((if u then ([] : List Event) else [⟨k, Step.upload, false⟩]) ++
            [⟨k, Step.register, false⟩, ⟨k, Step.attach, true⟩])) ∨
    ((u = true ∨ o.throws k Step.upload = false) ∧ o.throws k Step.register = false ∧
      o.throws k Step.attach = false ∧
      oneAttempt o c k u s =
        .succeeded
          ⟨if u then s.r2 else uploadToR2 s.r2 c.r2Key c.buffer
              (some (detectContentType c.buffer c.r2Key)),
            (attachAssetToSegment (o.attachErr k)
              (insertAsset s.db c.r2Key c.assetType c.buffer.length (o.hash c.buffer) "pipeline"
                (some (detectContentType c.buffer c.r2Key)) none none).1
              c.segmentId
              (insertAsset s.db c.r2Key c.assetType c.buffer.length (o.hash c.buffer) "pipeline"
                (some (detectContentType c.buffer c.r2Key)) none none).2
              (some c.role)).1⟩
          ((if u then ([] : List Event) else [⟨k, Step.upload, false⟩]) ++
            [⟨k, Step.register, false⟩, ⟨k, Step.attach, false⟩])) := by
  cases u with
  | false =>
    by_cases ht : o.throws k Step.upload
    · exact Or.inl ⟨rfl, ht, by simp [oneAttempt, ht]⟩
    · simp only [Bool.not_eq_true] at ht
      by_cases hr : o.throws k Step.register
      · exact Or.inr (Or.inl ⟨Or.inr ht, hr, by simp [oneAttempt, ht, hr]⟩)
      · simp only [Bool.not_eq_true] at hr
        by_cases ha : o.throws k Step.attach
        · exact Or.inr (Or.inr (Or.inl ⟨Or.inr ht, hr, ha, by simp [oneAttempt, ht, hr, ha]⟩))
        · simp only [Bool.not_eq_true] at ha
          exact Or.inr (Or.inr (Or.inr ⟨Or.inr ht, hr, ha, by simp [oneAttempt, ht, hr, ha]⟩))
  | true =>
    by_cases hr : o.throws k Step.register
    · exact Or.inr (Or.inl ⟨Or.inl rfl, hr, by simp [oneAttempt, hr]⟩)
    · simp only [Bool.not_eq_true] at hr
      by_cases ha : o.throws k Step.attach
      · exact Or.inr (Or.inr (Or.inl ⟨Or.inl rfl, hr, ha, by simp [oneAttempt, hr, ha]⟩))
      · simp only [Bool.not_eq_true] at ha
        exact Or.inr (Or.inr (Or.inr ⟨Or.inl rfl, hr, ha, by simp [oneAttempt, hr, ha]⟩))

/-- An event of the conditional upload segment is the successful upload event,
and such a segment is only non-empty when the flag was down. -/
theorem mem_upEvents (u : Bool) (k : Nat) (e : Event)
    (h : e ∈ (if u then ([] : List Event) else [⟨k, Step.upload, false⟩])) :
    e = ⟨k, Step.upload, false⟩ ∧ u = false := by
  cases u <;> simp at h <;> simp [h]

/-- Every traced call belongs to the current or a later attempt. -/
theorem uploadAttempts_events_ge (o : Oracle) (c : UploadCall) :
    ∀ (n k : Nat) (u : Bool) (s : WState),
      ∀ e ∈ (uploadAttempts o c k n u s).2.2, k ≤ e.attempt := by
  intro n
  induction n with
  | zero => intro k u s e he; simp [uploadAttempts] at he
  | succ n ih =>
    intro k u s e he
    unfold uploadAttempts at he
    rcases oneAttempt_cases o c k u s with ⟨hu, ht, heq⟩ | ⟨hc, hr, heq⟩ |
      ⟨hc, hr, ha, heq⟩ | ⟨hc, hr, ha, heq⟩ <;> rw [heq] at he
    · rcases List.mem_append.mp he with h | h
      · obtain rfl := List.mem_singleton.mp h
        exact Nat.le_refl k
      · exact Nat.le_of_succ_le (ih (k + 1) false s e h)
    · rcases List.mem_append.mp he with h | h
      · rcases List.mem_append.mp h with h | h
        · obtain ⟨rfl, -⟩ := mem_upEvents u k e h
          exact Nat.le_refl k
        · obtain rfl := List.mem_singleton.mp h
          exact Nat.le_refl k
      · exact Nat.le_of_succ_le (ih (k + 1) true _ e h)
    · rcases List.mem_append.mp he with h | h
      · rcases List.mem_append.mp h with h | h
        · obtain ⟨rfl, -⟩ := mem_upEvents u k e h
          exact Nat.le_refl k
        · rcases List.mem_cons.mp h with rfl | h
          · exact Nat.le_refl k
          · obtain rfl := List.mem_singleton.mp h
            exact Nat.le_refl k
      · exact Nat.le_of_succ_le (ih (k + 1) true _ e h)
    · rcases List.mem_append.mp he with h | h
      · obtain ⟨rfl, -⟩ := mem_upEvents u k e h
        exact Nat.le_refl k
      · rcases List.mem_cons.mp h with rfl | h
        · exact Nat.le_refl k
        · obtain rfl := List.mem_singleton.mp h
          exact Nat.le_refl k

/-- Once the `uploadedToR2` flag is up, the loop never calls the Content
Store again. -/
theorem uploadAttempts_no_upload (o : Oracle) (c : UploadCall) :
    ∀ (n k : Nat) (s : WState),
      ∀ e ∈ (uploadAttempts o c k n true s).2.2, e.step ≠ Step.upload := by
  intro n
  induction n with
  | zero => intro k s e he; simp [uploadAttempts] at he
  | succ n ih =>
    intro k s e he
    unfold uploadAttempts at he
    rcases oneAttempt_cases o c k true s with ⟨hu, ht, heq⟩ | ⟨hc, hr, heq⟩ |
      ⟨hc, hr, ha, heq⟩ | ⟨hc, hr, ha, heq⟩
    · exact absurd hu (by decide)
    · rw [heq] at he
      rcases List.mem_append.mp he with h | h
      · rcases List.mem_append.mp h with h | h
        · exact absurd (mem_upEvents true k e h).2 (by decide)
        · obtain rfl := List.mem_singleton.mp h
          simp
      · exact ih (k + 1) _ e h
    · rw [heq] at he
      rcases List.mem_append.mp he with h | h
      · rcases List.mem_append.mp h with h | h
        · exact absurd (mem_upEvents true k e h).2 (by decide)
        · rcases List.mem_cons.mp h with rfl | h
          · simp
          · obtain rfl := List.mem_singleton.mp h
            simp
      · exact ih (k + 1) _ e h
    · rw [heq] at he
      rcases List.mem_append.mp he with h | h
      · exact absurd (mem_upEvents true k e h).2 (by decide)
      · rcases List.mem_cons.mp h with rfl | h
        · simp
        · obtain rfl := List.mem_singleton.mp h
          simp

/-- With the flag up, every attempt that runs at all calls `insertAsset`. -/
theorem uploadAttempts_register_every (o : Oracle) (c : UploadCall) :
    ∀ (n k : Nat) (s : WState) (a : Nat),
      (∃ e ∈ (uploadAttempts o c k n true s).2.2, e.attempt = a) →
      ∃ e ∈ (uploadAttempts o c k n true s).2.2, e.attempt = a ∧ e.step = Step.register := by
  intro n
  induction n with
  | zero =>
    intro k s a h
    obtain ⟨e, he, -⟩ := h
    simp [uploadAttempts] at he
  | succ n ih =>
    intro k s a h
    obtain ⟨e, he, hea⟩ := h
    unfold uploadAttempts at he ⊢
    rcases oneAttempt_cases o c k true s with ⟨hu, ht, heq⟩ | ⟨hc, hr, heq⟩ |
      ⟨hc, hr, ha, heq⟩ | ⟨hc, hr, ha, heq⟩
    · exact absurd hu (by decide)
    · rw [heq] at he ⊢
      rcases List.mem_append.mp he with h | h
      · have hek : e.attempt = k := by
          rcases List.mem_append.mp h with h | h
          · exact absurd (mem_upEvents true k e h).2 (by decide)
          · obtain rfl := List.mem_singleton.mp h
            rfl
        exact ⟨⟨k, Step.register, true⟩,
          List.mem_append.mpr (Or.inl (List.mem_append.mpr (Or.inr (List.mem_singleton.mpr rfl)))),
          hek ▸ hea, rfl⟩
      · obtain ⟨e2, he2, ha2, hs2⟩ := ih (k + 1) _ a ⟨e, h, hea⟩
        exact ⟨e2, List.mem_append.mpr (Or.inr he2), ha2, hs2⟩
    · rw [heq] at he ⊢
      rcases List.mem_append.mp he with h | h
      · have hek : e.attempt = k := by
          rcases List.mem_append.mp h with h | h
          · exact absurd (mem_upEvents true k e h).2 (by decide)
          · rcases List.mem_cons.mp h with rfl | h
            · rfl
            · obtain rfl := List.mem_singleton.mp h
              rfl
        exact ⟨⟨k, Step.register, false⟩,
          List.mem_append.mpr (Or.inl (List.mem_append.mpr (Or.inr (List.mem_cons_self _ _)))),
          hek ▸ hea, rfl⟩
      · obtain ⟨e2, he2, ha2, hs2⟩ := ih (k + 1) _ a ⟨e, h, hea⟩
        exact ⟨e2, List.mem_append.mpr (Or.inr he2), ha2, hs2⟩
    · rw [heq] at he ⊢
      have hek : e.attempt = k := by
        rcases List.mem_append.mp he with h | h
        · exact absurd (mem_upEvents true k e h).2 (by decide)
        · rcases List.mem_cons.mp h with rfl | h
          · rfl
          · obtain rfl := List.mem_singleton.mp h
            rfl
      exact ⟨⟨k, Step.register, false⟩,
        List.mem_append.mpr (Or.inr (List.mem_cons_self _ _)), hek ▸ hea, rfl⟩

/-- Put count of the conditional upload segment. -/
theorem countP_upEvents (u : Bool) (k : Nat) :
    List.countP isPut (if u then ([] : List Event) else [⟨k, Step.upload, false⟩]) =
      if u then 0 else 1 := by
  cases u <;> simp [isPut, List.countP_cons, List.countP_nil]

/-- The loop performs at most one successful put, and none once the flag is
up. -/
theorem uploadAttempts_putCount (o : Oracle) (c : UploadCall) :
    ∀ (n k : Nat) (u : Bool) (s : WState),
      List.countP isPut (uploadAttempts o c k n u s).2.2 ≤ 1 ∧
        (u = true → List.countP isPut (uploadAttempts o c k n u s).2.2 = 0) := by
  intro n
  induction n with
  | zero =>
    intro k u s
    exact ⟨by simp [uploadAttempts], fun _ => by simp [uploadAttempts]⟩
  | succ n ih =>
    intro k u s
    unfold uploadAttempts
    rcases oneAttempt_cases o c k u s with ⟨hu, ht, heq⟩ | ⟨hc, hr, heq⟩ |
      ⟨hc, hr, ha, heq⟩ | ⟨hc, hr, ha, heq⟩ <;> rw [heq]
    · constructor
      · show List.countP isPut ([⟨k, Step.upload, true⟩] ++ _) ≤ 1
        rw [List.countP_append]
        have h0 : List.countP isPut [(⟨k, Step.upload, true⟩ : Event)] = 0 := by
          simp [isPut, List.countP_cons, List.countP_nil]
        rw [h0]
        simpa using (ih (k + 1) false s).1
      · intro h
        rw [h] at hu
        exact absurd hu (by decide)
    · have h0 : List.countP isPut [(⟨k, Step.register, true⟩ : Event)] = 0 := by
        simp [isPut, List.countP_cons, List.countP_nil]
      constructor
      · show List.countP isPut ((_ ++ _) ++ _) ≤ 1
        rw [List.countP_append, List.countP_append, h0, countP_upEvents,
          (ih (k + 1) true _).2 rfl]
        cases u <;> simp
      · intro h
        subst h
        show List.countP isPut ((_ ++ _) ++ _) = 0
        rw [List.countP_append, List.countP_append, h0, countP_upEvents,
          (ih (k + 1) true _).2 rfl]
        simp
    · have h0 : List.countP isPut
          [(⟨k, Step.register, false⟩ : Event), ⟨k, Step.attach, true⟩] = 0 := by
        simp [isPut, List.countP_cons, List.countP_nil]
      constructor
      · show List.countP isPut ((_ ++ _) ++ _) ≤ 1
        rw [List.countP_append, List.countP_append, h0, countP_upEvents,
          (ih (k + 1) true _).2 rfl]
        cases u <;> simp
      · intro h
        subst h
        show List.countP isPut ((_ ++ _) ++ _) = 0
        rw [List.countP_append, List.countP_append, h0, countP_upEvents,
          (ih (k + 1) true _).2 rfl]
        simp
    · have h0 : List.countP isPut
          [(⟨k, Step.register, false⟩ : Event), ⟨k, Step.attach, false⟩] = 0 := by
        simp [isPut, List.countP_cons, List.countP_nil]
      constructor
      · show List.countP isPut (_ ++ _) ≤ 1
        rw [List.countP_append, h0, countP_upEvents]
        cases u <;> simp
      · intro h
        subst h
        show List.countP isPut (_ ++ _) = 0
        rw [List.countP_append, h0, countP_upEvents]
        simp

/-- A `false` return means every one of the `n` attempts ran (and was
traced). -/
theorem uploadAttempts_false_exhausts (o : Oracle) (c : UploadCall) :
    ∀ (n k : Nat) (u : Bool) (s : WState),
      (uploadAttempts o c k n u s).2.1 = false →
      ∀ a : Nat, k ≤ a → a < k + n →
        ∃ e ∈ (uploadAttempts o c k n u s).2.2, e.attempt = a := by
  intro n
  induction n with
  | zero =>
    intro k u s _ a hka hkan
    omega
  | succ n ih =>
    intro k u s hfalse a hka hkan
    unfold uploadAttempts at hfalse ⊢
    rcases oneAttempt_cases o c k u s with ⟨hu, ht, heq⟩ | ⟨hc, hr, heq⟩ |
      ⟨hc, hr, ha, heq⟩ | ⟨hc, hr, ha, heq⟩ <;> rw [heq] at hfalse ⊢
    · by_cases hak : a = k
      · subst hak
        exact ⟨⟨a, Step.upload, true⟩,
          List.mem_append.mpr (Or.inl (List.mem_singleton.mpr rfl)), rfl⟩
      · obtain ⟨e, he, hea⟩ := ih (k + 1) false s hfalse a (by omega) (by omega)
        exact ⟨e, List.mem_append.mpr (Or.inr he), hea⟩
    · by_cases hak : a = k
      · subst hak
        exact ⟨⟨a, Step.register, true⟩,
          List.mem_append.mpr
            (Or.inl (List.mem_append.mpr (Or.inr (List.mem_singleton.mpr rfl)))), rfl⟩
      · obtain ⟨e, he, hea⟩ := ih (k + 1) true _ hfalse a (by omega) (by omega)
        exact ⟨e, List.mem_append.mpr (Or.inr he), hea⟩
    · by_cases hak : a = k
      · subst hak
        exact ⟨⟨a, Step.register, false⟩,
          List.mem_append.mpr
            (Or.inl (List.mem_append.mpr (Or.inr (List.mem_cons_self _ _)))), rfl⟩
      · obtain ⟨e, he, hea⟩ := ih (k + 1) true _ hfalse a (by omega) (by omega)
        exact ⟨e, List.mem_append.mpr (Or.inr he), hea⟩
    · exact absurd hfalse (by simp)

/-- A successful put event is a non-throwing upload call. -/
theorem isPut_step (e : Event) (h : isPut e = true) :
    e.step = Step.upload ∧ e.threw = false := by
  simp [isPut] at h
  exact h

/-- No upload call happens after the successful put. -/
theorem uploadAttempts_upload_le_put (o : Oracle) (c : UploadCall) :
    ∀ (n k : Nat) (u : Bool) (s : WState),
      ∀ e1 ∈ (uploadAttempts o c k n u s).2.2, isPut e1 = true →
        ∀ e2 ∈ (uploadAttempts o c k n u s).2.2, e2.step = Step.upload →
          e2.attempt ≤ e1.attempt := by
  intro n
  induction n with
  | zero => intro k u s e1 he1; simp [uploadAttempts] at he1
  | succ n ih =>
    intro k u s e1 he1 h1 e2 he2 h2
    unfold uploadAttempts at he1 he2
    rcases oneAttempt_cases o c k u s with ⟨hu, ht, heq⟩ | ⟨hc, hr, heq⟩ |
      ⟨hc, hr, ha, heq⟩ | ⟨hc, hr, ha, heq⟩ <;> rw [heq] at he1 he2
    · rcases List.mem_append.mp he1 with hx | hx
      · obtain rfl := List.mem_singleton.mp hx
        simp [isPut] at h1
      · rcases List.mem_append.mp he2 with hy | hy
        · obtain rfl := List.mem_singleton.mp hy
          have := uploadAttempts_events_ge o c n (k + 1) false s e1 hx
          show k ≤ e1.attempt
          omega
        · exact ih (k + 1) false s e1 hx h1 e2 hy h2
    · have he1k : e1.attempt = k := by
        rcases List.mem_append.mp he1 with hx | hx
        · rcases List.mem_append.mp hx with hx | hx
          · exact congrArg Event.attempt (mem_upEvents u k e1 hx).1
          · obtain rfl := List.mem_singleton.mp hx
            simp [isPut] at h1
        · exact absurd ((isPut_step e1 h1).1)
            (uploadAttempts_no_upload o c n (k + 1) _ e1 hx)
      have he2k : e2.attempt = k := by
        rcases List.mem_append.mp he2 with hy | hy
        · rcases List.mem_append.mp hy with hy | hy
          · exact congrArg Event.attempt (mem_upEvents u k e2 hy).1
          · obtain rfl := List.mem_singleton.mp hy
            simp at h2
        · exact absurd h2 (uploadAttempts_no_upload o c n (k + 1) _ e2 hy)
      rw [he1k, he2k]
    · have he1k : e1.attempt = k := by
        rcases List.mem_append.mp he1 with hx | hx
        · rcases List.mem_append.mp hx with hx | hx
          · exact congrArg Event.attempt (mem_upEvents u k e1 hx).1
          · rcases List.mem_cons.mp hx with rfl | hx
            · simp [isPut] at h1
            · obtain rfl := List.mem_singleton.mp hx
              simp [isPut] at h1
        · exact absurd ((isPut_step e1 h1).1)
            (uploadAttempts_no_upload o c n (k + 1) _ e1 hx)
      have he2k : e2.attempt = k := by
        rcases List.mem_append.mp he2 with hy | hy
        · rcases List.mem_append.mp hy with hy | hy
          · exact congrArg Event.attempt (mem_upEvents u k e2 hy).1
          · rcases List.mem_cons.mp hy with rfl | hy
            · simp at h2
            · obtain rfl := List.mem_singleton.mp hy
              simp at h2
        · exact absurd h2 (uploadAttempts_no_upload o c n (k + 1) _ e2 hy)
      rw [he1k, he2k]
    · have he1k : e1.attempt = k := by
        rcases List.mem_append.mp he1 with hx | hx
        · exact congrArg Event.attempt (mem_upEvents u k e1 hx).1
        · rcases List.mem_cons.mp hx with rfl | hx
          · simp [isPut] at h1
          · obtain rfl := List.mem_singleton.mp hx
            simp [isPut] at h1
      have he2k : e2.attempt = k := by
        rcases List.mem_append.mp he2 with hy | hy
        · exact congrArg Event.attempt (mem_upEvents u k e2 hy).1
        · rcases List.mem_cons.mp hy with rfl | hy
          · simp at h2
          · obtain rfl := List.mem_singleton.mp hy
            simp at h2
      rw [he1k, he2k]

/-- Every attempt that runs after the successful put performs the ledger
registration. -/
theorem uploadAttempts_after_put_register (o : Oracle) (c : UploadCall) :
    ∀ (n k : Nat) (u : Bool) (s : WState),
      ∀ e1 ∈ (uploadAttempts o c k n u s).2.2, isPut e1 = true →
        ∀ a : Nat, e1.attempt < a →
          (∃ e ∈ (uploadAttempts o c k n u s).2.2, e.attempt = a) →
          ∃ e ∈ (uploadAttempts o c k n u s).2.2, e.attempt = a ∧ e.step = Step.register := by
  intro n
  induction n with
  | zero => intro k u s e1 he1; simp [uploadAttempts] at he1
  | succ n ih =>
    intro k u s e1 he1 h1 a haa hex
    obtain ⟨e, he, hea⟩ := hex
    unfold uploadAttempts at he1 he ⊢
    rcases oneAttempt_cases o c k u s with ⟨hu, ht, heq⟩ | ⟨hc, hr, heq⟩ |
      ⟨hc, hr, ha, heq⟩ | ⟨hc, hr, ha, heq⟩ <;> rw [heq] at he1 he ⊢
    · rcases List.mem_append.mp he1 with hx | hx
      · obtain rfl := List.mem_singleton.mp hx
        simp [isPut] at h1
      · rcases List.mem_append.mp he with hy | hy
        · obtain rfl := List.mem_singleton.mp hy
          have hak : k = a := hea
          have := uploadAttempts_events_ge o c n (k + 1) false s e1 hx
          omega
        · obtain ⟨e3, he3, ha3, hs3⟩ := ih (k + 1) false s e1 hx h1 a haa ⟨e, hy, hea⟩
          exact ⟨e3, List.mem_append.mpr (Or.inr he3), ha3, hs3⟩
    · have he1k : e1.attempt = k := by
        rcases List.mem_append.mp he1 with hx | hx
        · rcases List.mem_append.mp hx with hx | hx
          · exact congrArg Event.attempt (mem_upEvents u k e1 hx).1
          · obtain rfl := List.mem_singleton.mp hx
            simp [isPut] at h1
        · exact absurd ((isPut_step e1 h1).1)
            (uploadAttempts_no_upload o c n (k + 1) _ e1 hx)
      rw [he1k] at haa
      rcases List.mem_append.mp he with hy | hy
      · have hek : e.attempt = k := by
          rcases List.mem_append.mp hy with hy | hy
          · exact congrArg Event.attempt (mem_upEvents u k e hy).1
          · obtain rfl := List.mem_singleton.mp hy
            rfl
        omega
      · obtain ⟨e3, he3, ha3, hs3⟩ :=
          uploadAttempts_register_every o c n (k + 1) _ a ⟨e, hy, hea⟩
        exact ⟨e3, List.mem_append.mpr (Or.inr he3), ha3, hs3⟩
    · have he1k : e1.attempt = k := by
        rcases List.mem_append.mp he1 with hx | hx
        · rcases List.mem_append.mp hx with hx | hx
          · exact congrArg Event.attempt (mem_upEvents u k e1 hx).1
          · rcases List.mem_cons.mp hx with rfl | hx
            · simp [isPut] at h1
            · obtain rfl := List.mem_singleton.mp hx
              simp [isPut] at h1
        · exact absurd ((isPut_step e1 h1).1)
            (uploadAttempts_no_upload o c n (k + 1) _ e1 hx)
      rw [he1k] at haa
      rcases List.mem_append.mp he with hy | hy
      · have hek : e.attempt = k := by
          rcases List.mem_append.mp hy with hy | hy
          · exact congrArg Event.attempt (mem_upEvents u k e hy).1
          · rcases List.mem_cons.mp hy with rfl | hy
            · rfl
            · obtain rfl := List.mem_singleton.mp hy
              rfl
        omega
      · obtain ⟨e3, he3, ha3, hs3⟩ :=
          uploadAttempts_register_every o c n (k + 1) _ a ⟨e, hy, hea⟩
        exact ⟨e3, List.mem_append.mpr (Or.inr he3), ha3, hs3⟩
    · have he1k : e1.attempt = k := by
        rcases List.mem_append.mp he1 with hx | hx
        · exact congrArg Event.attempt (mem_upEvents u k e1 hx).1
        · rcases List.mem_cons.mp hx with rfl | hx
          · simp [isPut] at h1
          · obtain rfl := List.mem_singleton.mp hx
            simp [isPut] at h1
      rw [he1k] at haa
      have hek : e.attempt = k := by
        rcases List.mem_append.mp he with hy | hy
        · exact congrArg Event.attempt (mem_upEvents u k e hy).1
        · rcases List.mem_cons.mp hy with rfl | hy
          · rfl
          · obtain rfl := List.mem_singleton.mp hy
            rfl
      omega

/-- When the loop returns `true`, the buffer is in the Content Store under
the key and an Asset row for the key exists; when `attachAssetToSegment`
never errors, a SegmentAsset row linking that asset to the segment exists as
well. -/
theorem uploadAttempts_success_post (o : Oracle) (c : UploadCall) :
    ∀ (n k : Nat) (u : Bool) (s : WState),
      (u = true → R2HasBuffer c s) →
      (uploadAttempts o c k n u s).2.1 = true →
      R2HasBuffer c (uploadAttempts o c k n u s).1 ∧
        (∃ a ∈ (uploadAttempts o c k n u s).1.db.assets, a.r2_key = c.r2Key) ∧
        ((∀ m, o.attachErr m = false) →
          ∃ aid, (∃ a ∈ (uploadAttempts o c k n u s).1.db.assets,
              a.id = aid ∧ a.r2_key = c.r2Key) ∧
            ∃ sa ∈ (uploadAttempts o c k n u s).1.db.segmentAssets,
              sa.segment_id = c.segmentId ∧ sa.asset_id = aid) := by
  intro n
  induction n with
  | zero =>
    intro k u s _ htrue
    exact absurd htrue (by simp [uploadAttempts])
  | succ n ih =>
    intro k u s hpre htrue
    unfold uploadAttempts at htrue ⊢
    rcases oneAttempt_cases o c k u s with ⟨hu, ht, heq⟩ | ⟨hc, hr, heq⟩ |
      ⟨hc, hr, ha, heq⟩ | ⟨hc, hr, ha, heq⟩ <;> rw [heq] at htrue ⊢
    · exact ih (k + 1) false s (fun h => absurd h (by decide)) htrue
    · refine ih (k + 1) true _ (fun _ => ?_) htrue
      by_cases hub : u = true
      · rw [if_pos hub]
        exact hpre hub
      · rw [if_neg hub]
        exact ⟨_, lookup_uploadToR2 s.r2 c.r2Key c.buffer _, rfl⟩
    · refine ih (k + 1) true _ (fun _ => ?_) htrue
      show R2HasBuffer c ⟨if u then s.r2 else _, _⟩
      unfold R2HasBuffer
      by_cases hub : u = true
      · rw [if_pos hub]
        exact hpre hub
      · rw [if_neg hub]
        exact ⟨_, lookup_uploadToR2 s.r2 c.r2Key c.buffer _, rfl⟩
    · obtain ⟨arow, harow, hakey, haid⟩ :=
        insertAsset_mem_key s.db c.r2Key c.assetType c.buffer.length (o.hash c.buffer)
          "pipeline" (some (detectContentType c.buffer c.r2Key)) none none
      have hassets := attach_assets_any (o.attachErr k)
        (insertAsset s.db c.r2Key c.assetType c.buffer.length (o.hash c.buffer) "pipeline"
          (some (detectContentType c.buffer c.r2Key)) none none).1
        c.segmentId
        (insertAsset s.db c.r2Key c.assetType c.buffer.length (o.hash c.buffer) "pipeline"
          (some (detectContentType c.buffer c.r2Key)) none none).2
        (some c.role)
      refine ⟨?_, ?_, ?_⟩
      · unfold R2HasBuffer
        by_cases hub : u = true
        · rw [if_pos hub]
          exact hpre hub
        · rw [if_neg hub]
          exact ⟨_, lookup_uploadToR2 s.r2 c.r2Key c.buffer _, rfl⟩
      · rw [hassets]
        exact ⟨arow, harow, hakey⟩
      · intro hae
        rw [hassets, hae k]
        obtain ⟨-, -, sa, hsa, hseg, hsid⟩ := attach_ok
          (insertAsset s.db c.r2Key c.assetType c.buffer.length (o.hash c.buffer) "pipeline"
            (some (detectContentType c.buffer c.r2Key)) none none).1
          c.segmentId
          (insertAsset s.db c.r2Key c.assetType c.buffer.length (o.hash c.buffer) "pipeline"
            (some (detectContentType c.buffer c.r2Key)) none none).2
          (some c.role)
        exact ⟨_, ⟨arow, harow, haid, hakey⟩, sa, hsa, hseg, hsid⟩

/-- A successful first attempt short-circuits the loop. -/
theorem uploadAttempts_first_success (o : Oracle) (c : UploadCall) (k n : Nat) (u : Bool)
    (s s1 : WState) (evs : List Event)
    (h : oneAttempt o c k u s = .succeeded s1 evs) :
    uploadAttempts o c k (n + 1) u s = (s1, true, evs) := by
  unfold uploadAttempts
  rw [h]

/-- C1: calling `uploadAndRegisterAsset` twice with identical (bytes, key,
segment, role) — with no remote failures, on a database without the key and
with consistent asset ids — succeeds both times, leaves the database of the
second call identical to the first (the second `insertAsset` finds the
existing row by `r2_key` and the second `attachAssetToSegment` is a no-op),
and yields exactly one Asset row for the key and exactly one SegmentAsset row
for the (segment, asset) pair. -/
theorem uploadAndRegisterAsset_idempotent (hash : List Nat → String) (c : UploadCall) (s : WState)
    (hkey : ∀ a ∈ s.db.assets, a.r2_key ≠ c.r2Key)
    (hid : ∀ sa ∈ s.db.segmentAssets, sa.asset_id < s.db.nextAssetId) :
    (uploadAndRegisterAsset (okOracle hash) c 5 s).2.1 = true ∧
      (uploadAndRegisterAsset (okOracle hash) c 5
        (uploadAndRegisterAsset (okOracle hash) c 5 s).1).2.1 = true ∧
      (uploadAndRegisterAsset (okOracle hash) c 5
          (uploadAndRegisterAsset (okOracle hash) c 5 s).1).1.db =
        (uploadAndRegisterAsset (okOracle hash) c 5 s).1.db ∧
      List.countP (fun a => a.r2_key == c.r2Key)
        (uploadAndRegisterAsset (okOracle hash) c 5
          (uploadAndRegisterAsset (okOracle hash) c 5 s).1).1.db.assets = 1 ∧
      List.countP (fun sa => sa.segment_id == c.segmentId && sa.asset_id == s.db.nextAssetId)
        (uploadAndRegisterAsset (okOracle hash) c 5
          (uploadAndRegisterAsset (okOracle hash) c 5 s).1).1.db.segmentAssets = 1 := by
  have hf1 : s.db.assets.find? (fun a => a.r2_key == c.r2Key) = none :=
    List.find?_eq_none.mpr (fun a ha => by simpa using hkey a ha)
  have hfp1 : s.db.segmentAssets.find?
      (fun sa => sa.segment_id == c.segmentId && sa.asset_id == s.db.nextAssetId) = none := by
    refine List.find?_eq_none.mpr (fun sa hsa => ?_)
    simp only [Bool.and_eq_true, beq_iff_eq, not_and]
    intro _ h2x
    exact absurd h2x (Nat.ne_of_lt (hid sa hsa))
  have hins1 := insertAsset_fresh s.db c.r2Key c.assetType c.buffer.length (hash c.buffer)
    "pipeline" (some (detectContentType c.buffer c.r2Key)) none none hf1
  rcases oneAttempt_cases (okOracle hash) c 0 false s with ⟨-, ht, -⟩ | ⟨-, hr, -⟩ |
    ⟨-, -, ha, -⟩ | ⟨-, -, -, heq⟩
  · exact absurd ht (by simp [okOracle])
  · exact absurd hr (by simp [okOracle])
  · exact absurd ha (by simp [okOracle])
  have hatt1 := attach_fresh
    ({ s.db with
        assets := s.db.assets ++
          [⟨s.db.nextAssetId, c.r2Key, c.assetType,
            some (detectContentType c.buffer c.r2Key), c.buffer.length, hash c.buffer,
            "pipeline"⟩],
        nextAssetId := s.db.nextAssetId + 1 })
    c.segmentId s.db.nextAssetId (some c.role) (by simpa using hfp1)
  have h1 : uploadAndRegisterAsset (okOracle hash) c 5 s =
      ((⟨uploadToR2 s.r2 c.r2Key c.buffer (some (detectContentType c.buffer c.r2Key)),
        { s.db with
          assets := s.db.assets ++
            [⟨s.db.nextAssetId, c.r2Key, c.assetType,
            some (detectContentType c.buffer c.r2Key), c.buffer.length, hash c.buffer,
            "pipeline"⟩],
          segmentAssets := s.db.segmentAssets ++
            [⟨c.segmentId, s.db.nextAssetId, jsOr c.role "page"⟩],
          nextAssetId := s.db.nextAssetId + 1 }⟩ : WState),
        true, [⟨0, Step.upload, false⟩, ⟨0, Step.register, false⟩, ⟨0, Step.attach, false⟩]) := by
    show uploadAttempts (okOracle hash) c 0 5 false s = _
    rw [uploadAttempts_first_success (okOracle hash) c 0 4 false s _ _ heq]
    simp [okOracle, hins1, hatt1]
  have hf2 : ({ s.db with
          assets := s.db.assets ++
            [⟨s.db.nextAssetId, c.r2Key, c.assetType,
            some (detectContentType c.buffer c.r2Key), c.buffer.length, hash c.buffer,
            "pipeline"⟩],
          segmentAssets := s.db.segmentAssets ++
            [⟨c.segmentId, s.db.nextAssetId, jsOr c.role "page"⟩],
          nextAssetId := s.db.nextAssetId + 1 } : DB).assets.find?
      (fun a => a.r2_key == c.r2Key) =
      some (⟨s.db.nextAssetId, c.r2Key, c.assetType,
            some (detectContentType c.buffer c.r2Key), c.buffer.length, hash c.buffer,
            "pipeline"⟩ : Asset) := by
    show (s.db.assets ++
      ([⟨s.db.nextAssetId, c.r2Key, c.assetType,
            some (detectContentType c.buffer c.r2Key), c.buffer.length, hash c.buffer,
            "pipeline"⟩] : List Asset)).find? (fun a => a.r2_key == c.r2Key) = _
    rw [List.find?_append, hf1]
    simp [List.find?]
  have hfp2 : ({ s.db with
          assets := s.db.assets ++
            [⟨s.db.nextAssetId, c.r2Key, c.assetType,
            some (detectContentType c.buffer c.r2Key), c.buffer.length, hash c.buffer,
            "pipeline"⟩],
          segmentAssets := s.db.segmentAssets ++
            [⟨c.segmentId, s.db.nextAssetId, jsOr c.role "page"⟩],
          nextAssetId := s.db.nextAssetId + 1 } : DB).segmentAssets.find?
      (fun sa => sa.segment_id == c.segmentId && sa.asset_id == s.db.nextAssetId) =
      some (⟨c.segmentId, s.db.nextAssetId, jsOr c.role "page"⟩ : SegmentAsset) := by
    show (s.db.segmentAssets ++
      ([⟨c.segmentId, s.db.nextAssetId, jsOr c.role "page"⟩] : List SegmentAsset)).find? _ = _
    rw [List.find?_append, hfp1]
    simp [List.find?]
  have hins2 := insertAsset_reuse ({ s.db with
          assets := s.db.assets ++
            [⟨s.db.nextAssetId, c.r2Key, c.assetType,
            some (detectContentType c.buffer c.r2Key), c.buffer.length, hash c.buffer,
            "pipeline"⟩],
          segmentAssets := s.db.segmentAssets ++
            [⟨c.segmentId, s.db.nextAssetId, jsOr c.role "page"⟩],
          nextAssetId := s.db.nextAssetId + 1 }) c.r2Key c.assetType c.buffer.length (hash c.buffer)
    "pipeline" (some (detectContentType c.buffer c.r2Key)) none none
    (⟨s.db.nextAssetId, c.r2Key, c.assetType,
            some (detectContentType c.buffer c.r2Key), c.buffer.length, hash c.buffer,
            "pipeline"⟩) hf2
  have hatt2 := attach_exists ({ s.db with
          assets := s.db.assets ++
            [⟨s.db.nextAssetId, c.r2Key, c.assetType,
            some (detectContentType c.buffer c.r2Key), c.buffer.length, hash c.buffer,
            "pipeline"⟩],
          segmentAssets := s.db.segmentAssets ++
            [⟨c.segmentId, s.db.nextAssetId, jsOr c.role "page"⟩],
          nextAssetId := s.db.nextAssetId + 1 }) c.segmentId s.db.nextAssetId (some c.role)
    (⟨c.segmentId, s.db.nextAssetId, jsOr c.role "page"⟩ : SegmentAsset) hfp2
  rcases oneAttempt_cases (okOracle hash) c 0 false
      (⟨uploadToR2 s.r2 c.r2Key c.buffer (some (detectContentType c.buffer c.r2Key)),
        { s.db with
          assets := s.db.assets ++
            [⟨s.db.nextAssetId, c.r2Key, c.assetType,
            some (detectContentType c.buffer c.r2Key), c.buffer.length, hash c.buffer,
            "pipeline"⟩],
          segmentAssets := s.db.segmentAssets ++
            [⟨c.segmentId, s.db.nextAssetId, jsOr c.role "page"⟩],
          nextAssetId := s.db.nextAssetId + 1 }⟩ : WState) with ⟨-, ht2, -⟩ | ⟨-, hr2, -⟩ | ⟨-, -, ha2, -⟩ | ⟨-, -, -, heq2⟩
  · exact absurd ht2 (by simp [okOracle])
  · exact absurd hr2 (by simp [okOracle])
  · exact absurd ha2 (by simp [okOracle])
  have h2 : uploadAndRegisterAsset (okOracle hash) c 5
      (⟨uploadToR2 s.r2 c.r2Key c.buffer (some (detectContentType c.buffer c.r2Key)),
        { s.db with
          assets := s.db.assets ++
            [⟨s.db.nextAssetId, c.r2Key, c.assetType,
            some (detectContentType c.buffer c.r2Key), c.buffer.length, hash c.buffer,
            "pipeline"⟩],
          segmentAssets := s.db.segmentAssets ++
            [⟨c.segmentId, s.db.nextAssetId, jsOr c.role "page"⟩],
          nextAssetId := s.db.nextAssetId + 1 }⟩ : WState) =
      (⟨uploadToR2 (uploadToR2 s.r2 c.r2Key c.buffer (some (detectContentType c.buffer c.r2Key))) c.r2Key c.buffer
          (some (detectContentType c.buffer c.r2Key)),
        { s.db with
          assets := s.db.assets ++
            [⟨s.db.nextAssetId, c.r2Key, c.assetType,
            some (detectContentType c.buffer c.r2Key), c.buffer.length, hash c.buffer,
            "pipeline"⟩],
          segmentAssets := s.db.segmentAssets ++
            [⟨c.segmentId, s.db.nextAssetId, jsOr c.role "page"⟩],
          nextAssetId := s.db.nextAssetId + 1 }⟩,
        true, [⟨0, Step.upload, false⟩, ⟨0, Step.register, false⟩, ⟨0, Step.attach, false⟩]) := by
    show uploadAttempts (okOracle hash) c 0 5 false _ = _
    rw [uploadAttempts_first_success (okOracle hash) c 0 4 false _ _ _ heq2]
    simp [okOracle, hins2, hatt2]
  have hc0 : List.countP (fun a => a.r2_key == c.r2Key) s.db.assets = 0 :=
    List.countP_eq_zero.mpr (fun a ha => by simpa using hkey a ha)
  have hcp0 : List.countP
      (fun sa => sa.segment_id == c.segmentId && sa.asset_id == s.db.nextAssetId)
      s.db.segmentAssets = 0 := by
    refine List.countP_eq_zero.mpr (fun sa hsa => ?_)
    simp only [Bool.and_eq_true, beq_iff_eq, not_and]
    intro _ h2x
    exact absurd h2x (Nat.ne_of_lt (hid sa hsa))
  refine ⟨by rw [h1], ?_, ?_, ?_, ?_⟩
  · rw [h1]
    show (uploadAndRegisterAsset (okOracle hash) c 5 _).2.1 = true
    rw [h2]
  · rw [h1]
    show (uploadAndRegisterAsset (okOracle hash) c 5 _).1.db = _
    rw [h2]
  · rw [h1]
    show List.countP _ (uploadAndRegisterAsset (okOracle hash) c 5 _).1.db.assets = 1
    rw [h2]
    show List.countP _ (s.db.assets ++ [⟨s.db.nextAssetId, c.r2Key, c.assetType,
            some (detectContentType c.buffer c.r2Key), c.buffer.length, hash c.buffer,
            "pipeline"⟩]) = 1
    rw [List.countP_append, hc0]
    simp [List.countP_cons]
  · rw [h1]
    show List.countP _ (uploadAndRegisterAsset (okOracle hash) c 5 _).1.db.segmentAssets = 1
    rw [h2]
    show List.countP _ (s.db.segmentAssets ++
      [⟨c.segmentId, s.db.nextAssetId, jsOr c.role "page"⟩]) = 1
    rw [List.countP_append, hcp0]
    simp [List.countP_cons]

/-- C1 witness: the idempotence theorem on the empty remote state. -/
theorem uploadAndRegisterAsset_idempotent_witness :
    (uploadAndRegisterAsset (okOracle hashEx) callEx 5 emptyState).2.1 = true ∧
      List.countP (fun a => a.r2_key == callEx.r2Key)
        (uploadAndRegisterAsset (okOracle hashEx) callEx 5
          (uploadAndRegisterAsset (okOracle hashEx) callEx 5 emptyState).1).1.db.assets = 1 := by
  have h := uploadAndRegisterAsset_idempotent hashEx callEx emptyState
    (by simp [emptyState]) (by simp [emptyState])
  exact ⟨h.1, h.2.2.2.1⟩

/-- C2 counterexample: `attachAssetToSegment` reports failure by returning
`false` rather than throwing, and `uploadAndRegisterAsset` ignores that
return value — with an always-erroring attachment the call still returns
`true` while no SegmentAsset row exists. -/
theorem uploadAndRegisterAsset_success_without_link :
    (uploadAndRegisterAsset oracleAttachErr callEx 5 emptyState).2.1 = true ∧
      (uploadAndRegisterAsset oracleAttachErr callEx 5 emptyState).1.db.segmentAssets = [] :=
  ⟨by decide, by decide⟩

/-- C2 amended: a `true` return guarantees the bytes are in the Content Store
under the destination key and an Asset row exists for that key; the
attachment step was invoked, but because its `false`-return error path is
ignored, the SegmentAsset row is only guaranteed when `attachAssetToSegment`
reports no database error, in which case a row links that asset to the given
segment. -/
theorem uploadAndRegisterAsset_success_postcondition (o : Oracle) (c : UploadCall)
    (retries : Nat) (s : WState)
    (htrue : (uploadAndRegisterAsset o c retries s).2.1 = true) :
    R2HasBuffer c (uploadAndRegisterAsset o c retries s).1 ∧
      (∃ a ∈ (uploadAndRegisterAsset o c retries s).1.db.assets, a.r2_key = c.r2Key) ∧
      ((∀ m, o.attachErr m = false) →
        ∃ aid, (∃ a ∈ (uploadAndRegisterAsset o c retries s).1.db.assets,
            a.id = aid ∧ a.r2_key = c.r2Key) ∧
          ∃ sa ∈ (uploadAndRegisterAsset o c retries s).1.db.segmentAssets,
            sa.segment_id = c.segmentId ∧ sa.asset_id = aid) :=
  uploadAttempts_success_post o c retries 0 false s (fun h => absurd h (by decide)) htrue

/-- C2 amended witness: the postcondition theorem on the all-success
oracle. -/
theorem uploadAndRegisterAsset_success_postcondition_witness :
    ∃ a ∈ (uploadAndRegisterAsset oracleOk callEx 5 emptyState).1.db.assets,
      a.r2_key = callEx.r2Key :=
  (uploadAndRegisterAsset_success_postcondition oracleOk callEx 5 emptyState (by decide)).2.1

/-- C3: within one call, at most one successful Content Store put happens, no
upload call follows the successful put, every attempt after the put still
performs the ledger registration, and a `false` (not thrown) result means all
`retries` attempts ran. -/
theorem uploadAndRegisterAsset_retry_discipline (o : Oracle) (c : UploadCall)
    (retries : Nat) (s : WState) :
    List.countP isPut (uploadAndRegisterAsset o c retries s).2.2 ≤ 1 ∧
      (∀ e1 ∈ (uploadAndRegisterAsset o c retries s).2.2, isPut e1 = true →
        ∀ e2 ∈ (uploadAndRegisterAsset o c retries s).2.2, e2.step = Step.upload →
          e2.attempt ≤ e1.attempt) ∧
      (∀ e1 ∈ (uploadAndRegisterAsset o c retries s).2.2, isPut e1 = true →
        ∀ a : Nat, e1.attempt < a →
          (∃ e ∈ (uploadAndRegisterAsset o c retries s).2.2, e.attempt = a) →
          ∃ e ∈ (uploadAndRegisterAsset o c retries s).2.2,
            e.attempt = a ∧ e.step = Step.register) ∧
      ((uploadAndRegisterAsset o c retries s).2.1 = false →
        ∀ a : Nat, a < retries →
          ∃ e ∈ (uploadAndRegisterAsset o c retries s).2.2, e.attempt = a) :=
  ⟨(uploadAttempts_putCount o c retries 0 false s).1,
    uploadAttempts_upload_le_put o c retries 0 false s,
    uploadAttempts_after_put_register o c retries 0 false s,
    fun hf a ha =>
      uploadAttempts_false_exhausts o c retries 0 false s hf a (Nat.zero_le a) (by omega)⟩

/-- C3 witness: the retry-discipline theorem on an oracle whose registration
always throws. -/
theorem uploadAndRegisterAsset_retry_discipline_witness :
    List.countP isPut (uploadAndRegisterAsset oracleRegisterThrows callEx 2 emptyState).2.2 ≤ 1 ∧
      (∃ e ∈ (uploadAndRegisterAsset oracleRegisterThrows callEx 2 emptyState).2.2,
        e.attempt = 1) := by
  have h := uploadAndRegisterAsset_retry_discipline oracleRegisterThrows callEx 2 emptyState
  refine ⟨h.1, ?_⟩
  obtain ⟨e, he, hea⟩ := h.2.2.2 (by decide) 1 (by decide)
  exact ⟨e, he, hea⟩

end ChapterBridge
